import Mathlib

namespace IranMonitor

/-
Verification of the aggregation pipeline of the Iran Crisis Monitor
(`api/live.py`): news merging/deduplication, the LLM reranker shared by the
social-post and market pipelines, Polymarket ingestion, odds-history
synthesis, date normalization and RSS parsing.

Python dictionaries are modelled as structures with `Option String` fields
(`none` = key absent / value `None`); floats are modelled as rationals;
network calls, environment variables, the random source and hash functions
are passed in explicitly as parameters.
-/
/-! ## Python string primitives

Reimplemented over `String.data` character lists so that every definition
reduces in the kernel.  Scope: ASCII case mapping and ASCII whitespace, which
is what the strings flowing through this pipeline use. -/

/-- `str.lower()` (ASCII). -/
def pyLower (s : String) : String :=
  String.mk (s.data.map Char.toLower)

/-- `str.upper()` (ASCII). -/
def pyUpper (s : String) : String :=
  String.mk (s.data.map Char.toUpper)

/-- `str.strip()` (ASCII whitespace). -/
def pyStrip (s : String) : String :=
  String.mk (((s.data.dropWhile Char.isWhitespace).reverse.dropWhile Char.isWhitespace).reverse)

/-- `str.startswith(p)`. -/
def strStartsWith (s p : String) : Bool :=
  p.data.isPrefixOf s.data

/-- Substring containment, the Python `kw in text` test. -/
def containsSub : List Char → List Char → Bool
  | needle, [] => needle.isEmpty
  | needle, c :: rest => needle.isPrefixOf (c :: rest) || containsSub needle rest

/-- `text.replace("Z", "+00:00")` — the needle is a single character, so a
character-wise scan is exact. -/
def replaceZ : List Char → List Char
  | [] => []
  | c :: rest =>
    if c = 'Z' then '+' :: '0' :: '0' :: ':' :: '0' :: '0' :: replaceZ rest
    else c :: replaceZ rest

/-- `str.split(",")`: split on every comma, keeping empty pieces. -/
def splitComma : List Char → List (List Char)
  | [] => [[]]
  | c :: rest =>
    match splitComma rest with
    | [] => [[]]
    | h :: t => if c = ',' then [] :: h :: t else (c :: h) :: t

/-- `int(s)` on a digit-only string. -/
def digitsToNat (cs : List Char) : Nat :=
  cs.foldl (fun n c => n * 10 + (c.toNat - 48)) 0

/-- `str.isdigit()` (ASCII digits). -/
def isDigits (cs : List Char) : Bool :=
  !cs.isEmpty && cs.all Char.isDigit

/-- `IRAN_KEYWORDS` (api/live.py:34-45). -/
def IRAN_KEYWORDS : List String :=
  ["iran", "tehran", "irgc", "khamenei", "hormuz", "hezbollah",
   "persian gulf", "nuclear", "natanz", "fordow", "middle east strike",
   "houthi", "strait", "regime change", "isfahan", "karaj", "parchin",
   "qom", "arabian sea", "red sea", "iran war", "iran conflict",
   "iran us", "iran israel", "iran attack", "epic fury", "lion's roar",
   "iranian regime", "iranian military", "tehran strike", "iran nuclear",
   "cruise missile iran", "ballistic missile iran", "irgc quds",
   "hezbollah attack", "strait of hormuz", "persian gulf war",
   "iran sanctions", "iran deal", "jcpoa", "enrichment", "centrifuge",
   "rouhani", "raisi", "pezeshkian", "iran president", "revolutionary guard"]

/-! ## News items and `merge_and_dedupe_news_items` (api/live.py:695-739) -/

/-- A news item dictionary.  Fields mirror the keys produced by `parse_rss`
and `normalize_x_post_to_news_item`; `none` models an absent key. -/
structure Item where
  id : Option String
  itype : Option String
  tag : Option String
  source : Option String
  title : Option String
  excerpt : Option String
  url : Option String
  time : Option String
  timestamp : Option String
deriving DecidableEq, Repr

/-- ASCII alphanumeric check, mirroring the regex class `[a-z0-9]` applied to
a lower-cased string in `_news_dedupe_key`. -/
def isLowerAlnum (c : Char) : Bool :=
  ('a' ≤ c && c ≤ 'z') || ('0' ≤ c && c ≤ '9')

/-- `_news_dedupe_key` (live.py:695-701): lower-case the title, strip
non-alphanumerics, truncate to 80 chars; fall back to the lower-cased
url-or-id when that normalization is empty. -/
def news_dedupe_key (item : Item) : String :=
  let t := pyLower (item.title.getD "")
  let normalized := String.mk ((t.data.filter isLowerAlnum).take 80)
  if normalized ≠ "" then normalized
  else
    let fallbackRaw := if (item.url.getD "") ≠ "" then item.url.getD "" else item.id.getD ""
    String.mk ((pyLower fallbackRaw).data.take 80)

/-- The dedupe pass of `merge_and_dedupe_news_items`: first occurrence of
each key wins; `seen` is the accumulated key set. -/
def dedupeNews : List Item → List String → List Item
  | [], _ => []
  | i :: rest, seen =>
    let key := news_dedupe_key i
    if key ∈ seen then dedupeNews rest seen
    else i :: dedupeNews rest (key :: seen)

/-- Sort key: `item.get("time", "1970-01-01T00:00:00Z")`. -/
def timeKey (item : Item) : String :=
  item.time.getD "1970-01-01T00:00:00Z"

/-- `list.sort(key=..., reverse=True)` is a stable sort placing larger keys
first; `List.mergeSort` with this relation is exactly that. -/
def sortByTimeDesc (l : List Item) : List Item :=
  l.mergeSort (fun a b => decide (timeKey b ≤ timeKey a))

/-- Social-origin test used to partition the deduplicated pool
(live.py:720-723). -/
def socialOrigin (item : Item) : Bool :=
  strStartsWith (item.source.getD "") "@" || strStartsWith (item.url.getD "") "https://x.com/"

/-- `X_RESERVED_NEWS_SLOTS` (live.py:83). -/
def X_RESERVED_NEWS_SLOTS : Int := 5

/-- The backfill loop of `merge_and_dedupe_news_items` (live.py:729-736):
walk the pool, appending items not already selected until `limit` is
reached.  The Python loop keys `selected_ids` by object identity; elements
of the deduplicated pool are pairwise distinct values (distinct dedupe
keys), so value membership is the same test. -/
def backfillNews (limit : Int) : List Item → List Item → List Item
  | [], sel => sel
  | i :: rest, sel =>
    if (sel.length : Int) ≥ limit then sel
    else if i ∈ sel then backfillNews limit rest sel
    else backfillNews limit rest (sel ++ [i])

/-- `merge_and_dedupe_news_items` (live.py:704-739). -/
def merge_and_dedupe_news_items (rss_items x_items : List Item) (limit : Int) : List Item :=
  let combined := rss_items ++ x_items
  let unique := sortByTimeDesc (dedupeNews combined [])
  if limit ≤ 0 then []
  else
    let x_unique := unique.filter socialOrigin
    let non_x_unique := unique.filter (fun i => !(decide (i ∈ x_unique)))
    let reserved_x := min (min X_RESERVED_NEWS_SLOTS (x_unique.length : Int)) limit
    let selected0 := non_x_unique.take (limit - reserved_x).toNat ++ x_unique.take reserved_x.toNat
    let selected := backfillNews limit unique selected0
    (sortByTimeDesc selected).take limit.toNat

/-- The key set accumulated by a dedupe pass over `l` starting from `seen`. -/
def seenAfterDedupe : List Item → List String → List String
  | [], s => s
  | i :: r, s =>
    if news_dedupe_key i ∈ s then seenAfterDedupe r s
    else seenAfterDedupe r (news_dedupe_key i :: s)

/-! ### Stage views of `merge_and_dedupe_news_items` -/

/-- The deduplicated, recency-sorted pool (`unique` in the source). -/
def mergePool (rss_items x_items : List Item) : List Item :=
  sortByTimeDesc (dedupeNews (rss_items ++ x_items) [])

/-- The social-origin part of the pool (`x_unique` in the source). -/
def mergeSocialPool (rss_items x_items : List Item) : List Item :=
  (mergePool rss_items x_items).filter socialOrigin

/-- `reserved_x` in the source. -/
def mergeReserved (rss_items x_items : List Item) (limit : Int) : Int :=
  min (min X_RESERVED_NEWS_SLOTS ((mergeSocialPool rss_items x_items).length : Int)) limit

/-- `selected` before the backfill loop. -/
def mergeSelected0 (rss_items x_items : List Item) (limit : Int) : List Item :=
  ((mergePool rss_items x_items).filter
      (fun i => !(decide (i ∈ mergeSocialPool rss_items x_items)))).take
    (limit - mergeReserved rss_items x_items limit).toNat
  ++ (mergeSocialPool rss_items x_items).take (mergeReserved rss_items x_items limit).toNat

/-- A sample RSS-sourced item used by concrete witnesses. -/
def sampleRssItem : Item where
  id := some "r1"
  itype := some "news"
  tag := some "breaking"
  source := some "Reuters"
  title := some "Iran confirms strike in Tehran"
  excerpt := some "Details emerging."
  url := some "https://example.com/a"
  time := some "2026-02-28T10:00:00Z"
  timestamp := some "2026-02-28T10:00:00Z"

/-- A sample social-origin item used by concrete witnesses. -/
def sampleXItem : Item where
  id := some "x1"
  itype := some "osint"
  tag := some "osint"
  source := some "@auroraintel"
  title := some "IAEA reports disruption at Isfahan facility"
  excerpt := some "IAEA reports disruption at Isfahan facility"
  url := some "https://x.com/auroraintel/status/2"
  time := some "2026-02-28T10:06:00Z"
  timestamp := some "2026-02-28T10:06:00Z"

/-- A family of pairwise-distinct social-origin items used by witnesses. -/
def sampleXItemN (n : Nat) : Item where
  id := some ("x" ++ toString n)
  itype := some "osint"
  tag := some "osint"
  source := some "@auroraintel"
  title := some ("IRGC movement update number " ++ toString n)
  excerpt := some "update"
  url := some ("https://x.com/auroraintel/status/" ++ toString n)
  time := some "2026-02-28T10:06:00Z"
  timestamp := some "2026-02-28T10:06:00Z"

/-! ## The LLM reranker (api/live.py:95-220 and 497-614)

The Anthropic call is modelled as an explicit outcome parameter: the code
under verification is everything around `urllib.request.urlopen`. -/

/-- One block of an Anthropic Messages response `content` array.
`btext = none` models an absent `text` key. -/
structure ContentBlock where
  btype : String
  btext : Option String
deriving DecidableEq, Repr

/-- The decoded JSON body of a model reply: either not a dict, or a dict
whose `content` entry is absent-or-not-a-list (`none`) or a block list. -/
inductive AnthropicData where
  | notDict
  | dict (content : Option (List ContentBlock))
deriving DecidableEq, Repr

/-- Outcome of the `urllib.request.urlopen` call plus the `json.loads` step:
`ok none` models a body that fails to decode as JSON. -/
inductive UrlOpenResult where
  | httpError (code : Nat) (body : Option String)
  | urlError (reason : String)
  | otherError (msg : String)
  | ok (decoded : Option AnthropicData)
deriving DecidableEq, Repr

/-- The `llm_meta` dictionary built by `filter_x_items_with_llm`. -/
structure LlmMeta where
  inputCount : Nat
  outputCount : Nat
  llmEnabled : Bool
  llmApplied : Bool
  result : String
  modelName : Option String
  httpStatus : Option Nat
  errorDetail : Option String
deriving DecidableEq, Repr

def ANTHROPIC_DEFAULT_MODEL : String := "claude-3-5-haiku-latest"

/-- The loop body of `parse_llm_relevant_indices` (live.py:519-527). -/
def parseIndicesLoop (total : Nat) : List (List Char) → List Nat → List Nat
  | [], acc => acc
  | tok :: rest, acc =>
    let t := pyStrip (String.mk tok)
    if !(isDigits t.data) then parseIndicesLoop total rest acc
    else
      let n := digitsToNat t.data
      if 1 ≤ n ∧ n - 1 < total ∧ (n - 1) ∉ acc then
        parseIndicesLoop total rest (acc ++ [n - 1])
      else parseIndicesLoop total rest acc

/-- `parse_llm_relevant_indices` (live.py:512-527): 0-based indices parsed
from a comma-separated reply, deduplicated and bounded. -/
def parse_llm_relevant_indices (raw_text : String) (total_count : Nat) : List Nat :=
  let cleaned := pyStrip raw_text
  if cleaned = "" then []
  else if pyUpper cleaned = "NONE" then []
  else parseIndicesLoop total_count (splitComma cleaned.data) []

/-- `build_llm_relevance_prompt` (live.py:497-509). -/
def build_llm_relevance_prompt (items : List Item) : String :=
  let tweet_lines := items.enum.map (fun p =>
    toString (p.1 + 1) ++ ". " ++ (p.2.source.getD "X") ++ ": " ++ (p.2.title.getD ""))
  let tweets_block := String.intercalate "\n" tweet_lines
  "You are filtering X posts for an Iran crisis monitoring dashboard.\n"
  ++ "Include posts directly relevant to Iran military, nuclear, IRGC, Hormuz, Hezbollah, "
  ++ "US-Iran-Israel escalation, or market impacts from Iran conflict.\n"
  ++ "Reply with ONLY tweet numbers, comma-separated, or NONE.\n\n"
  ++ "Tweets:\n" ++ tweets_block

/-- The text-extraction step inside `filter_x_items_with_llm`
(live.py:590-600): `response.get("content") or []`, then the joined text of
`type == "text"` blocks, stripped; `none` models the `.get` raising on a
non-dict reply, which the code turns into `parse_failed_passthrough`. -/
def filterLlmText (d : AnthropicData) : Option String :=
  match d with
  | .notDict => none
  | .dict content =>
    some (pyStrip (String.intercalate " " ((content.getD []).filterMap
      (fun b => if b.btype = "text" then some (b.btext.getD "") else none))))

/-- `filter_x_items_with_llm` (live.py:530-614), with the environment
(`ANTHROPIC_API_KEY`, `ANTHROPIC_MODEL`) and the network call passed in.
Returns the `(items, llm_meta)` pair of the `return_meta=True` form. -/
def filter_x_items_with_llm (apiKeyEnv modelEnv : Option String)
    (call : UrlOpenResult) (items : List Item) : List Item × LlmMeta :=
  let meta0 : LlmMeta :=
    { inputCount := items.length, outputCount := items.length,
      llmEnabled := false, llmApplied := false, result := "not_run",
      modelName := none, httpStatus := none, errorDetail := none }
  let api_key := pyStrip (apiKeyEnv.getD "")
  if items = [] then (items, { meta0 with result := "no_items" })
  else if api_key = "" then (items, { meta0 with result := "no_api_key" })
  else
    let m0 := pyStrip (modelEnv.getD ANTHROPIC_DEFAULT_MODEL)
    let modelValue := if m0 = "" then ANTHROPIC_DEFAULT_MODEL else m0
    let meta1 := { meta0 with llmEnabled := true, llmApplied := true,
                              modelName := some modelValue }
    match call with
    | .httpError code body =>
      (items, { meta1 with
        result := "http_" ++ toString code ++ "_passthrough",
        httpStatus := some code,
        errorDetail := some (String.mk ((body.getD "http_error").data.take 180)) })
    | .urlError reason =>
      (items, { meta1 with
        result := "network_error_passthrough",
        errorDetail := some (String.mk (reason.data.take 180)) })
    | .otherError msg =>
      (items, { meta1 with
        result := "request_failed_passthrough",
        errorDetail := some (String.mk (msg.data.take 180)) })
    | .ok none => (items, { meta1 with result := "parse_failed_passthrough" })
    | .ok (some d) =>
      match filterLlmText d with
      | none => (items, { meta1 with result := "parse_failed_passthrough" })
      | some llm_text =>
        let indices := parse_llm_relevant_indices llm_text items.length
        if indices = [] ∧ pyUpper llm_text = "NONE" then
          ([], { meta1 with outputCount := 0, result := "filtered_none" })
        else if indices = [] then
          (items, { meta1 with result := "unparseable_passthrough" })
        else
          let filtered := indices.filterMap (fun idx => items[idx]?)
          (filtered, { meta1 with outputCount := filtered.length,
                                  result := "filtered_indices" })

/-- Maximal digit runs of a string, i.e. `re.findall(r"\d+", text)`;
`cur` is the reversed current run. -/
def digitRunsAux : List Char → List Char → List (List Char)
  | [], cur => if cur.isEmpty then [] else [cur.reverse]
  | c :: rest, cur =>
    if c.isDigit then digitRunsAux rest (c :: cur)
    else if cur.isEmpty then digitRunsAux rest []
    else cur.reverse :: digitRunsAux rest []

def digitRuns (cs : List Char) : List (List Char) :=
  digitRunsAux cs []

/-- The loop body of `extract_ranked_ids` (live.py:118-127). -/
def extractRankedLoop (max_count max_index : Nat) : List (List Char) → List Nat → List Nat
  | [], ranked => ranked
  | tok :: rest, ranked =>
    let idx := digitsToNat tok
    if 1 ≤ idx ∧ idx ≤ max_index ∧ idx ∉ ranked then
      let ranked' := ranked ++ [idx]
      if max_count ≤ ranked'.length then ranked'
      else extractRankedLoop max_count max_index rest ranked'
    else extractRankedLoop max_count max_index rest ranked

/-- `extract_ranked_ids` (live.py:114-127): ranked 1-based ids from
free-form model output. -/
def extract_ranked_ids (text : String) (max_count max_index : Nat) : List Nat :=
  if text = "" then []
  else extractRankedLoop max_count max_index (digitRuns text.data) []

/-- `extract_anthropic_message_text` (live.py:129-140). -/
def extract_anthropic_message_text (d : AnthropicData) : String :=
  match d with
  | .notDict => ""
  | .dict none => ""
  | .dict (some blocks) =>
    pyStrip (String.intercalate " " (blocks.filterMap
      (fun b => if b.btype = "text" ∧ (b.btext.getD "") ≠ "" then some (b.btext.getD "")
                else none)))

/-! ## Market records and the market-selection pipeline (api/live.py:142-220) -/

/-- One entry of a market's `outcomes` list. -/
structure Outcome where
  label : String
  probability : ℚ
  active : Bool
deriving DecidableEq, Repr

/-- The market dictionary emitted by `fetch_polymarket` (live.py:836-846).
Floats are modelled as rationals; `clobTokenId` is the internal
`"_clobTokenId"` key (`none` = key absent). -/
structure MarketRecord where
  question : String
  resolutionDate : Option String
  volume : ℚ
  volumeFormatted : String
  outcomes : List Outcome
  status : String
  source : String
  url : String
  clobTokenId : Option String
deriving DecidableEq, Repr

/-- `llm_rank_market_ids` (live.py:142-193): ranked 1-based ids, or `[]` on
any failure.  The environment key and the network call are parameters; the
prompt it builds does not influence the parsed result. -/
def llm_rank_market_ids (apiKey : Option String) (call : UrlOpenResult)
    (markets : List MarketRecord) (max_keep : Nat) : List Nat :=
  if apiKey.getD "" = "" ∨ markets = [] then []
  else
    match call with
    | .ok (some d) =>
      extract_ranked_ids (extract_anthropic_message_text d) max_keep markets.length
    | _ => []

/-- The ranked-selection loop of `select_markets_for_dashboard`
(live.py:204-212); returns the selection, the used index set and whether the
early `return` (on reaching `max_keep`) fired. -/
def pickRankedLoop (pool : List MarketRecord) (max_keep : Nat) :
    List Nat → List Nat → List MarketRecord → List MarketRecord × List Nat × Bool
  | [], used, sel => (sel, used, false)
  | one_based :: rest, used, sel =>
    if h : 1 ≤ one_based ∧ one_based - 1 < pool.length ∧ (one_based - 1) ∉ used then
      let sel' := sel ++ [pool.get ⟨one_based - 1, h.2.1⟩]
      if max_keep ≤ sel'.length then (sel', (one_based - 1) :: used, true)
      else pickRankedLoop pool max_keep rest ((one_based - 1) :: used) sel'
    else pickRankedLoop pool max_keep rest used sel

/-- The fill loop of `select_markets_for_dashboard` (live.py:214-219). -/
def fillLoop (max_keep : Nat) : List (Nat × MarketRecord) → List Nat → List MarketRecord →
    List MarketRecord
  | [], _, sel => sel
  | (idx, m) :: rest, used, sel =>
    if idx ∈ used then fillLoop max_keep rest used sel
    else
      let sel' := sel ++ [m]
      if max_keep ≤ sel'.length then sel' else fillLoop max_keep rest used sel'

/-- `select_markets_for_dashboard` (live.py:195-220). -/
def select_markets_for_dashboard (apiKey : Option String) (call : UrlOpenResult)
    (markets : List MarketRecord) (max_keep : Nat) : List MarketRecord :=
  if markets = [] then []
  else
    let candidate_pool := markets.take 20
    let ranked_ids := llm_rank_market_ids apiKey call candidate_pool max_keep
    if ranked_ids = [] then candidate_pool.take max_keep
    else
      match pickRankedLoop candidate_pool max_keep ranked_ids [] [] with
      | (sel, _, true) => sel
      | (sel, used, false) => fillLoop max_keep candidate_pool.enum used sel

/-! ### C1: the literal NONE reply -/

/-- A market record as produced by `fetch_polymarket`, used by concrete
inputs. -/
def sampleMarket : MarketRecord where
  question := "Will Iran close the Strait of Hormuz by 2027?"
  resolutionDate := some "2026-12-31"
  volume := 1000
  volumeFormatted := "$1K"
  outcomes := [⟨"Yes", 25, true⟩]
  status := "active"
  source := "Polymarket"
  url := "https://polymarket.com/event/hormuz"
  clobTokenId := none

/-- A decoded model reply whose text is the literal `NONE`. -/
def noneReplyData : AnthropicData :=
  .dict (some [⟨"text", some "NONE"⟩])

/-! ## Market ingestion: `fetch_polymarket` (api/live.py:785-850)

The Gamma API response is modelled as an already-decoded event list; the
per-event processing, relevance filtering, volume aggregation and sorting
are embedded below.  Floats are rationals; `round(x, 1)` is round-half-even
on rationals (Python rounds the binary double; representation error of the
double is out of scope). -/

/-- A sub-market of an event.  `none` models an absent key (or, for
`outcomePrices`/`clobTokenIds`, a value that fails to parse as a list). -/
structure SubMarket where
  closed : Bool
  volume : Option ℚ
  groupItemTitle : Option String
  question : Option String
  outcomePrices : Option (List ℚ)
  clobTokenIds : Option (List String)
deriving DecidableEq, Repr

/-- A Gamma API event. -/
structure PolyEvent where
  title : Option String
  slug : Option String
  endDate : Option String
  endDateIso : Option String
  endDateISO : Option String
  markets : List SubMarket
deriving DecidableEq, Repr

/-- ASCII word character, the `\w` class used by the `\bover__\b` pattern. -/
def isWordChar (c : Char) : Bool :=
  ('a' ≤ c && c ≤ 'z') || ('A' ≤ c && c ≤ 'Z') || ('0' ≤ c && c ≤ '9') || c = '_'

/-- Does `over__` occur with word boundaries, starting at this position?
`before` is the previous character, if any. -/
def overBoundaryAt (before : Option Char) (suffix : List Char) : Bool :=
  "over__".data.isPrefixOf suffix
  && (match before with | none => true | some b => !isWordChar b)
  && (match suffix.drop 6 with | [] => true | c :: _ => !isWordChar c)

def searchOverTemplate : Option Char → List Char → Bool
  | _, [] => false
  | prev, c :: rest => overBoundaryAt prev (c :: rest) || searchOverTemplate (some c) rest

/-- `re.search` of the three `IRRELEVANT_MARKET_TITLE_PATTERNS`
(live.py:89-93): the first two are literal substrings, the third is
`\bover__\b`. -/
def matchesIrrelevantPattern (lowered : String) : Bool :=
  containsSub "...?".data lowered.data
  || containsSub "â€¦?".data lowered.data
  || searchOverTemplate none lowered.data

/-- `is_relevant_market_title` (live.py:103-112). -/
def is_relevant_market_title (title : String) : Bool :=
  if title = "" then false
  else
    let lowered := pyLower (pyStrip title)
    if lowered = "" then false
    else if !(IRAN_KEYWORDS.any (fun kw => containsSub kw.data lowered.data)) then false
    else !(matchesIrrelevantPattern lowered)

/-- Round-half-even to an integer, Python's `round`. -/
def bankersRoundZ (q : ℚ) : ℤ :=
  let f := ⌊q⌋
  let r := q - f
  if r < 1/2 then f
  else if 1/2 < r then f + 1
  else if Even f then f else f + 1

/-- `round(q, 1)`. -/
def pyRound1 (q : ℚ) : ℚ :=
  (bankersRoundZ (q * 10) : ℚ) / 10

/-- `f"{q:.1f}"` for the non-negative volumes this pipeline formats. -/
def fmtFixed1 (q : ℚ) : String :=
  let n := bankersRoundZ (q * 10)
  toString (n.ediv 10) ++ "." ++ toString (n.emod 10)

/-- `f"{q:.0f}"`. -/
def fmtFixed0 (q : ℚ) : String :=
  toString (bankersRoundZ q)

/-- The `vol_str` formatting of `fetch_polymarket` (live.py:835). -/
def formatVolume (tv : ℚ) : String :=
  if tv ≥ 1000000 then "$" ++ fmtFixed1 (tv / 1000000) ++ "M"
  else "$" ++ fmtFixed0 (tv / 1000) ++ "K"

/-- `float(m.get("volume", 0) or 0)`. -/
def subMarketVolume (m : SubMarket) : ℚ :=
  m.volume.getD 0

/-- `event.get("endDate") or event.get("endDateIso") or event.get("endDateISO")`. -/
def resolutionDateOf (e : PolyEvent) : Option String :=
  if (e.endDate.getD "") ≠ "" then e.endDate
  else if (e.endDateIso.getD "") ≠ "" then e.endDateIso
  else e.endDateISO

/-- The per-event body of `fetch_polymarket`'s loop (live.py:793-846):
`none` when the event is skipped (irrelevant title or zero outcomes). -/
def processEvent (e : PolyEvent) : Option MarketRecord :=
  let title := e.title.getD ""
  if !(is_relevant_market_title title) then none
  else
    let markets_list := e.markets
    let active_mkts := markets_list.filter (fun m => !m.closed)
    let first_token_id := (active_mkts.take 1).foldl (fun acc mkt =>
      match mkt.clobTokenIds with
      | some (x :: _) => some x
      | _ => acc) none
    let outcomes := (active_mkts.take 6).map (fun mkt =>
      { label := mkt.groupItemTitle.getD (mkt.question.getD title),
        probability := pyRound1 ((match mkt.outcomePrices with
          | some (p :: _) => p
          | _ => 0) * 100),
        active := true : Outcome })
    let total_volume := ((active_mkts.take 6).map subMarketVolume).sum
      + ((markets_list.filter (fun m => m.closed)).map subMarketVolume).sum
    if outcomes = [] then none
    else some
      { question := title,
        resolutionDate := resolutionDateOf e,
        volume := total_volume,
        volumeFormatted := formatVolume total_volume,
        outcomes := outcomes,
        status := "active",
        source := "Polymarket",
        url := "https://polymarket.com/event/" ++ e.slug.getD "",
        clobTokenId := first_token_id }

/-- `fetch_polymarket` (live.py:785-850) applied to a decoded event list:
process each event, drop the skipped ones, sort by total volume
descending. -/
def fetchPolymarketEvents (events : List PolyEvent) : List MarketRecord :=
  (events.filterMap processEvent).mergeSort (fun a b => decide (b.volume ≤ a.volume))

/-! ### C5: event volume aggregation -/

/-- A sub-market repeated to build events with many active sub-markets. -/
def activeUnitSubMarket : SubMarket where
  closed := false
  volume := some 1
  groupItemTitle := some "Outcome"
  question := none
  outcomePrices := some [1/2]
  clobTokenIds := none

/-- An event whose 7 active sub-markets each carry volume 1. -/
def sevenActiveEvent : PolyEvent where
  title := some "Will Iran close the Strait of Hormuz by 2027?"
  slug := some "hormuz"
  endDate := some "2026-12-31"
  endDateIso := none
  endDateISO := none
  markets := List.replicate 7 activeUnitSubMarket

/-- The record `fetch_polymarket` emits for `sevenActiveEvent`. -/
def sevenActiveRecord : MarketRecord where
  question := "Will Iran close the Strait of Hormuz by 2027?"
  resolutionDate := some "2026-12-31"
  volume := 6
  volumeFormatted := "$0K"
  outcomes := List.replicate 6 { label := "Outcome", probability := 50, active := true }
  status := "active"
  source := "Polymarket"
  url := "https://polymarket.com/event/hormuz"
  clobTokenId := none

/-! ## Date normalization: `normalize_date` (api/live.py:225-257)

`datetime` objects are records of civil fields plus an optional fixed UTC
offset (`tzinfo`).  Calendar arithmetic uses the standard civil-from-days /
days-from-civil algorithms over `Int` with floor division.  The
`fromisoformat` and `strptime` models follow the CPython grammar on the
shapes this pipeline meets (ASCII, 4-digit years, `UTC`/`GMT` as the only
`%Z` zone names — CPython additionally accepts the local zone's names). -/

structure PyDateTime where
  year : Int
  month : Int
  day : Int
  hour : Int
  minute : Int
  second : Int
  micro : Int
  offsetSeconds : Option Int
deriving DecidableEq, Repr

def isLeapYear (y : Int) : Bool :=
  (y.emod 4 = 0 && y.emod 100 ≠ 0) || y.emod 400 = 0

def daysInMonth (y m : Int) : Int :=
  if m = 2 then (if isLeapYear y then 29 else 28)
  else if m = 4 ∨ m = 6 ∨ m = 9 ∨ m = 11 then 30
  else 31

/-- Days since 1970-01-01 of a civil date (Howard Hinnant's algorithm,
floor-division form). -/
def daysFromCivil (y m d : Int) : Int :=
  let y' := y - (if m ≤ 2 then 1 else 0)
  let era := y'.fdiv 400
  let yoe := y' - era * 400
  let mp := (m + 9).emod 12
  let doy := (153 * mp + 2).fdiv 5 + d - 1
  let doe := yoe * 365 + yoe.fdiv 4 - yoe.fdiv 100 + doy
  era * 146097 + doe - 719468

/-- Civil date of a days-since-epoch count (inverse of `daysFromCivil`). -/
def civilFromDays (z : Int) : Int × Int × Int :=
  let z' := z + 719468
  let era := z'.fdiv 146097
  let doe := z' - era * 146097
  let yoe := (doe - doe.fdiv 1460 + doe.fdiv 36524 - doe.fdiv 146096).fdiv 365
  let y := yoe + era * 400
  let doy := doe - (365 * yoe + yoe.fdiv 4 - yoe.fdiv 100)
  let mp := (5 * doy + 2).fdiv 153
  let d := doy - (153 * mp + 2).fdiv 5 + 1
  let m := mp + (if mp < 10 then 3 else -9)
  (y + (if m ≤ 2 then 1 else 0), m, d)

def toEpochSeconds (dt : PyDateTime) : Int :=
  daysFromCivil dt.year dt.month dt.day * 86400
    + dt.hour * 3600 + dt.minute * 60 + dt.second

def ofEpochSeconds (s : Int) (micro : Int) (offset : Option Int) : PyDateTime :=
  let days := s.fdiv 86400
  let rem := s - days * 86400
  let c := civilFromDays days
  { year := c.1, month := c.2.1, day := c.2.2, hour := rem.fdiv 3600,
    minute := (rem.emod 3600).fdiv 60, second := rem.emod 60,
    micro := micro, offsetSeconds := offset }

/-- `dt.astimezone(timezone.utc).replace(tzinfo=None)` when aware, identity
when naive — the conversion step of `normalize_date`. -/
def astimezoneUtcNaive (dt : PyDateTime) : PyDateTime :=
  match dt.offsetSeconds with
  | none => dt
  | some off => ofEpochSeconds (toEpochSeconds dt - off) dt.micro none

def pad2 (n : Int) : String :=
  if n < 10 then "0" ++ toString n else toString n

def pad4 (n : Int) : String :=
  if n < 10 then "000" ++ toString n
  else if n < 100 then "00" ++ toString n
  else if n < 1000 then "0" ++ toString n
  else toString n

/-- `dt.strftime("%Y-%m-%dT%H:%M:%SZ")`. -/
def strftimeISO (dt : PyDateTime) : String :=
  pad4 dt.year ++ "-" ++ pad2 dt.month ++ "-" ++ pad2 dt.day ++ "T"
    ++ pad2 dt.hour ++ ":" ++ pad2 dt.minute ++ ":" ++ pad2 dt.second ++ "Z"

/-- Exactly `n` digits, returning their value and the remaining input. -/
def readDigits (n : Nat) (cs : List Char) : Option (Int × List Char) :=
  let pre := cs.take n
  if pre.length = n ∧ pre.all Char.isDigit then
    some ((digitsToNat pre : Int), cs.drop n)
  else none

/-- 1-2 digits, the way `strptime`'s numeric directives match. -/
def readDigits12 (cs : List Char) : Option (Int × List Char) :=
  let ds := cs.takeWhile Char.isDigit
  if 1 ≤ ds.length ∧ ds.length ≤ 2 then
    some ((digitsToNat ds : Int), cs.drop ds.length)
  else none

def expectChar (c : Char) : List Char → Option (List Char)
  | x :: rest => if x = c then some rest else none
  | [] => none

def validYMD (y m d : Int) : Bool :=
  1 ≤ y && y ≤ 9999 && 1 ≤ m && m ≤ 12 && 1 ≤ d && d ≤ daysInMonth y m

def validHMS (h mi s : Int) : Bool :=
  0 ≤ h && h ≤ 23 && 0 ≤ mi && mi ≤ 59 && 0 ≤ s && s ≤ 59

/-- `.ffffff` fraction (1-6 digits), scaled to microseconds. -/
def parseFraction : List Char → Option (Int × List Char)
  | '.' :: rest =>
    let ds := rest.takeWhile Char.isDigit
    if 1 ≤ ds.length ∧ ds.length ≤ 6 then
      some (((digitsToNat ds) * 10 ^ (6 - ds.length) : Nat), rest.drop ds.length)
    else none
  | _ => none

/-- `HH[:MM[:SS[.ffffff]]]`, consuming the whole input. -/
def parseTimePart (cs : List Char) : Option (Int × Int × Int × Int) :=
  readDigits 2 cs >>= fun p1 =>
  match p1.2 with
  | [] => some (p1.1, 0, 0, 0)
  | ':' :: r2 =>
    readDigits 2 r2 >>= fun p2 =>
    match p2.2 with
    | [] => some (p1.1, p2.1, 0, 0)
    | ':' :: r4 =>
      readDigits 2 r4 >>= fun p3 =>
      match p3.2 with
      | [] => some (p1.1, p2.1, p3.1, 0)
      | r5 => parseFraction r5 >>= fun p4 =>
          if p4.2 = [] then some (p1.1, p2.1, p3.1, p4.1) else none
    | _ => none
  | _ => none

/-- Split a time string at the first `+`/`-`, as CPython's ISO time parser
does to separate the UTC-offset suffix. -/
def splitTz : List Char → List Char × Option (Char × List Char)
  | [] => ([], none)
  | c :: rest =>
    if c = '+' ∨ c = '-' then ([], some (c, rest))
    else
      let p := splitTz rest
      (c :: p.1, p.2)

/-- `HH:MM[:SS]` offset magnitude in seconds. -/
def parseTzPart (cs : List Char) : Option Int :=
  readDigits 2 cs >>= fun p1 =>
  expectChar ':' p1.2 >>= fun r2 =>
  readDigits 2 r2 >>= fun p2 =>
  match p2.2 with
  | [] => if p1.1 ≤ 23 ∧ p2.1 ≤ 59 then some (p1.1 * 3600 + p2.1 * 60) else none
  | ':' :: r4 =>
    readDigits 2 r4 >>= fun p3 =>
    if p3.2 = [] ∧ p1.1 ≤ 23 ∧ p2.1 ≤ 59 ∧ p3.1 ≤ 59 then
      some (p1.1 * 3600 + p2.1 * 60 + p3.1)
    else none
  | _ => none

/-- `datetime.fromisoformat`: `YYYY-MM-DD[<sep>HH:MM[:SS[.ffffff]][±HH:MM[:SS]]]`. -/
def fromisoformat (str : String) : Option PyDateTime :=
  readDigits 4 str.data >>= fun py =>
  expectChar '-' py.2 >>= fun r2 =>
  readDigits 2 r2 >>= fun pm =>
  expectChar '-' pm.2 >>= fun r4 =>
  readDigits 2 r4 >>= fun pd =>
  if !(validYMD py.1 pm.1 pd.1) then none
  else
    match pd.2 with
    | [] => some ⟨py.1, pm.1, pd.1, 0, 0, 0, 0, none⟩
    | _sep :: timeRest =>
      let sp := splitTz timeRest
      parseTimePart sp.1 >>= fun pt =>
      if !(validHMS pt.1 pt.2.1 pt.2.2.1) then none
      else
        match sp.2 with
        | none => some ⟨py.1, pm.1, pd.1, pt.1, pt.2.1, pt.2.2.1, pt.2.2.2, none⟩
        | some (sign, tzcs) =>
          parseTzPart tzcs >>= fun mag =>
          some ⟨py.1, pm.1, pd.1, pt.1, pt.2.1, pt.2.2.1, pt.2.2.2,
            some (if sign = '-' then -mag else mag)⟩

def MONTH_ABBRS : List String :=
  ["jan", "feb", "mar", "apr", "may", "jun", "jul", "aug", "sep", "oct", "nov", "dec"]

def WEEKDAY_ABBRS : List String :=
  ["mon", "tue", "wed", "thu", "fri", "sat", "sun"]

def read3Alpha (cs : List Char) : Option (String × List Char) :=
  let pre := cs.take 3
  if pre.length = 3 ∧ pre.all Char.isAlpha then
    some (String.mk (pre.map Char.toLower), cs.drop 3)
  else none

/-- `%b`: case-insensitive 3-letter month name. -/
def readMonthAbbr (cs : List Char) : Option (Int × List Char) :=
  read3Alpha cs >>= fun p =>
  (MONTH_ABBRS.findIdx? (fun s => s = p.1)).map (fun i => ((i : Int) + 1, p.2))

/-- `%a`: case-insensitive 3-letter weekday name (value unused). -/
def readWeekdayAbbr (cs : List Char) : Option (List Char) :=
  read3Alpha cs >>= fun p =>
  if WEEKDAY_ABBRS.any (fun s => s = p.1) then some p.2 else none

/-- `%z`: `Z`, `±HHMM` or `±HH:MM`. -/
def parsePercentZ : List Char → Option (Int × List Char)
  | 'Z' :: rest => some (0, rest)
  | 'z' :: rest => some (0, rest)
  | c :: rest =>
    if c = '+' ∨ c = '-' then
      readDigits 2 rest >>= fun p1 =>
      (match p1.2 with
        | ':' :: r2 => readDigits 2 r2
        | r2 => readDigits 2 r2) >>= fun p2 =>
      if p1.1 ≤ 23 ∧ p2.1 ≤ 59 then
        some ((if c = '-' then -(p1.1 * 3600 + p2.1 * 60) else p1.1 * 3600 + p2.1 * 60), p2.2)
      else none
    else none
  | [] => none

/-- The ` dd mon yyyy HH:MM:SS` core shared by the RFC-2822-style formats. -/
def parseDMYTime (cs : List Char) : Option (Int × Int × Int × Int × Int × Int × List Char) :=
  readDigits12 cs >>= fun pd =>
  expectChar ' ' pd.2 >>= fun r2 =>
  readMonthAbbr r2 >>= fun pm =>
  expectChar ' ' pm.2 >>= fun r4 =>
  readDigits 4 r4 >>= fun py =>
  expectChar ' ' py.2 >>= fun r6 =>
  readDigits12 r6 >>= fun ph =>
  expectChar ':' ph.2 >>= fun r8 =>
  readDigits12 r8 >>= fun pmi =>
  expectChar ':' pmi.2 >>= fun r10 =>
  readDigits12 r10 >>= fun ps =>
  some (py.1, pm.1, pd.1, ph.1, pmi.1, ps.1, ps.2)

def mkValidated (y m d h mi s : Int) (off : Option Int) : Option PyDateTime :=
  if validYMD y m d && validHMS h mi s then some ⟨y, m, d, h, mi, s, 0, off⟩ else none

/-- `"%a, %d %b %Y %H:%M:%S %z"`. -/
def strptimeF1 (cs : List Char) : Option PyDateTime :=
  readWeekdayAbbr cs >>= fun r1 =>
  expectChar ',' r1 >>= fun r2 =>
  expectChar ' ' r2 >>= fun r3 =>
  parseDMYTime r3 >>= fun p =>
  expectChar ' ' p.2.2.2.2.2.2 >>= fun r4 =>
  parsePercentZ r4 >>= fun pz =>
  if pz.2 = [] then mkValidated p.1 p.2.1 p.2.2.1 p.2.2.2.1 p.2.2.2.2.1 p.2.2.2.2.2.1
    (some pz.1)
  else none

/-- `"%a, %d %b %Y %H:%M:%S %Z"` with zone name `UTC`/`GMT`; CPython leaves
the result naive for `%Z`. -/
def strptimeF2 (cs : List Char) : Option PyDateTime :=
  readWeekdayAbbr cs >>= fun r1 =>
  expectChar ',' r1 >>= fun r2 =>
  expectChar ' ' r2 >>= fun r3 =>
  parseDMYTime r3 >>= fun p =>
  expectChar ' ' p.2.2.2.2.2.2 >>= fun r4 =>
  read3Alpha r4 >>= fun pz =>
  if (pz.1 = "utc" ∨ pz.1 = "gmt") ∧ pz.2 = [] then
    mkValidated p.1 p.2.1 p.2.2.1 p.2.2.2.1 p.2.2.2.2.1 p.2.2.2.2.2.1 none
  else none

/-- `"%d %b %Y %H:%M:%S %z"`. -/
def strptimeF3 (cs : List Char) : Option PyDateTime :=
  parseDMYTime cs >>= fun p =>
  expectChar ' ' p.2.2.2.2.2.2 >>= fun r4 =>
  parsePercentZ r4 >>= fun pz =>
  if pz.2 = [] then mkValidated p.1 p.2.1 p.2.2.1 p.2.2.2.1 p.2.2.2.2.1 p.2.2.2.2.2.1
    (some pz.1)
  else none

/-- `"%Y-%m-%dT%H:%M:%S%z"`. -/
def strptimeF4 (cs : List Char) : Option PyDateTime :=
  readDigits 4 cs >>= fun py =>
  expectChar '-' py.2 >>= fun r2 =>
  readDigits12 r2 >>= fun pm =>
  expectChar '-' pm.2 >>= fun r4 =>
  readDigits12 r4 >>= fun pd =>
  expectChar 'T' pd.2 >>= fun r6 =>
  readDigits12 r6 >>= fun ph =>
  expectChar ':' ph.2 >>= fun r8 =>
  readDigits12 r8 >>= fun pmi =>
  expectChar ':' pmi.2 >>= fun r10 =>
  readDigits12 r10 >>= fun ps =>
  parsePercentZ ps.2 >>= fun pz =>
  if pz.2 = [] then mkValidated py.1 pm.1 pd.1 ph.1 pmi.1 ps.1 (some pz.1) else none

/-- `"%Y-%m-%d %H:%M:%S"` (naive). -/
def strptimeF5 (cs : List Char) : Option PyDateTime :=
  readDigits 4 cs >>= fun py =>
  expectChar '-' py.2 >>= fun r2 =>
  readDigits12 r2 >>= fun pm =>
  expectChar '-' pm.2 >>= fun r4 =>
  readDigits12 r4 >>= fun pd =>
  expectChar ' ' pd.2 >>= fun r6 =>
  readDigits12 r6 >>= fun ph =>
  expectChar ':' ph.2 >>= fun r8 =>
  readDigits12 r8 >>= fun pmi =>
  expectChar ':' pmi.2 >>= fun r10 =>
  readDigits12 r10 >>= fun ps =>
  if ps.2 = [] then mkValidated py.1 pm.1 pd.1 ph.1 pmi.1 ps.1 none else none

/-- The `formats` fallback loop of `normalize_date` (live.py:242-256). -/
def strptimeFormats (s : String) : Option PyDateTime :=
  (strptimeF1 s.data).orElse fun _ =>
  (strptimeF2 s.data).orElse fun _ =>
  (strptimeF3 s.data).orElse fun _ =>
  (strptimeF4 s.data).orElse fun _ =>
  strptimeF5 s.data

/-- The parse stage of `normalize_date`: the ISO attempt on the
`Z → +00:00` rewritten string, then the format list. -/
def normalizeParse (date_str : String) : Option PyDateTime :=
  if date_str = "" then none
  else
    let normalized := pyStrip date_str
    match fromisoformat (String.mk (replaceZ normalized.data)) with
    | some dt => some dt
    | none => strptimeFormats normalized

/-- `normalize_date` (live.py:225-257): ISO attempt, then the format list;
aware values are converted to UTC, naive ones formatted as-is. -/
def normalize_date (date_str : String) : Option String :=
  if date_str = "" then none
  else
    let normalized := pyStrip date_str
    match fromisoformat (String.mk (replaceZ normalized.data)) with
    | some dt => some (strftimeISO (astimezoneUtcNaive dt))
    | none =>
      match strptimeFormats normalized with
      | some dt => some (strftimeISO (astimezoneUtcNaive dt))
      | none => none

/-! ## RSS parsing: `parse_rss` (api/live.py:263-329)

The `xml.etree` step is external; an entry is modelled as the fields the
code reads from it.  An `Option` field is `none` when the node is missing
or its text is `None`; the whole document is `none` when the XML is empty
or fails to parse (`ET.ParseError`). -/

/-- The fields `parse_rss` reads from one `<item>`/`<entry>` node.
`linkNode` is `(text, href)` of the RSS `<link>` node when present;
`atomLinkHref` is the `href` attribute of the Atom link node. -/
structure XmlEntry where
  title : Option String
  atomTitle : Option String
  linkNode : Option (Option String × Option String)
  atomLinkHref : Option (Option String)
  description : Option String
  atomSummary : Option String
  pubDate : Option String
  atomUpdated : Option String
  atomPublished : Option String
deriving DecidableEq, Repr

/-- `re.sub(r"<[^>]+>", "", ·)`: drop each `<...>` run holding at least one
non-`>` character; an unmatched `<` is kept. -/
def stripTags : List Char → List Char
  | [] => []
  | '<' :: rest =>
    match h : rest.findIdx? (fun c => c = '>') with
    | some i =>
      if 1 ≤ i then stripTags (rest.drop (i + 1)) else '<' :: stripTags rest
    | none => '<' :: stripTags rest
  | c :: rest => c :: stripTags rest
termination_by cs => cs.length
decreasing_by
  · simp only [List.length_cons, List.length_drop]
    omega
  · simp [Nat.lt_succ_self]
  · simp [Nat.lt_succ_self]
  · simp [Nat.lt_succ_self]

/-- Text of an optional node, stripped, with the code's truthiness checks
(`if t is not None and t.text: x = t.text.strip()`). -/
def nodeTextStripped (o : Option String) : String :=
  match o with
  | some tx => if tx ≠ "" then pyStrip tx else ""
  | none => ""

/-- Tag-stripped, stripped, truncated description text
(`re.sub(r"<[^>]+>", "", d.text).strip()[:200]`). -/
def descText (o : Option String) : String :=
  match o with
  | some tx =>
    if tx ≠ "" then String.mk ((pyStrip (String.mk (stripTags tx.data))).data.take 200)
    else ""
  | none => ""

/-- The per-entry body of `parse_rss`'s loop (live.py:273-326), `none` when
the entry is dropped by the relevance filter. -/
def parseRssEntry (md5hex : String → String) (nowIso : String)
    (source_name tag_type : String) (entry : XmlEntry) : Option Item :=
  let t0 := nodeTextStripped entry.title
  let title := if t0 = "" then nodeTextStripped entry.atomTitle else t0
  let l0 := match entry.linkNode with
    | some p =>
      if (p.1.getD "") ≠ "" ∧ pyStrip (p.1.getD "") ≠ "" then pyStrip (p.1.getD "")
      else if (p.2.getD "") ≠ "" then p.2.getD ""
      else ""
    | none => ""
  let link := if l0 = "" then
      (match entry.atomLinkHref with
       | some href => href.getD ""
       | none => "")
    else l0
  let d0 := descText entry.description
  let desc := if d0 = "" then descText entry.atomSummary else d0
  let p0 := nodeTextStripped entry.pubDate
  let p1 := if p0 = "" then nodeTextStripped entry.atomUpdated else p0
  let pub_date := if p1 = "" then nodeTextStripped entry.atomPublished else p1
  let text_check := pyLower (title ++ " " ++ desc)
  if title ≠ "" ∧ IRAN_KEYWORDS.any (fun kw => containsSub kw.data text_check.data) then
    let iso_time := (normalize_date pub_date).getD nowIso
    some
      { id := some (String.mk ((md5hex (title ++ link)).data.take 12)),
        itype := some "news",
        tag := some tag_type,
        source := some source_name,
        title := some title,
        excerpt := some (String.mk (desc.data.take 180)),
        url := some link,
        time := some iso_time,
        timestamp := some iso_time }
  else none

/-- `parse_rss` (live.py:263-329): at most the first `max_items` entries
are processed; `md5hex` models `hashlib.md5(...).hexdigest()` and `nowIso`
the formatted fetch time substituted for unparseable dates. -/
def parse_rss (md5hex : String → String) (nowIso : String)
    (doc : Option (List XmlEntry)) (source_name tag_type : String)
    (max_items : Nat) : List Item :=
  match doc with
  | none => []
  | some entries =>
    (entries.take max_items).filterMap (parseRssEntry md5hex nowIso source_name tag_type)

/-- `fetch_one_feed` (live.py:332-338): a fetched-and-parsed document (or
`none` on fetch/parse failure) goes through `parse_rss` with
`max_items=10`. -/
def fetch_one_feed (md5hex : String → String) (nowIso : String)
    (doc : Option (List XmlEntry)) (source_name tag_type : String) : List Item :=
  parse_rss md5hex nowIso doc source_name tag_type 10

/-! ## Price history: `build_odds_history` (api/live.py:853-893)

The CLOB fetch is an oracle `fetchHistory : token → points`; the random
source is an explicit family `U : market-position → step → draw` standing
for the `random.uniform(-3, 3)` samples; `now` is `datetime.utcnow()`.
The in-place `history_pts[-1]["y"] = yes_prob` mutation and the
`m.pop("_clobTokenId", None)` loop become explicit list updates. -/

structure OddsPoint where
  t : String
  y : ℚ
deriving DecidableEq, Repr

/-- `history_pts[-1]["y"] = yes_prob`. -/
def setLastY : List OddsPoint → ℚ → List OddsPoint
  | [], _ => []
  | [pt], p => [{ pt with y := p }]
  | pt :: rest, p => pt :: setLastY rest p

/-- The synthetic-series fallback (live.py:874-885): 15 points at 6-hour
steps, clamped noisy values rounded to one decimal, last point forced to
the current probability.  `u i` is the uniform draw of the iteration with
loop index `i`. -/
def synthPts (yes_prob : ℚ) (u : Nat → ℚ) (now : PyDateTime) : List OddsPoint :=
  let pts := (List.range 15).reverse.map (fun (i : Nat) =>
    let tdt := ofEpochSeconds (toEpochSeconds now - ((i : Int) * 6) * 3600) now.micro
      now.offsetSeconds
    let noise := u i * ((i : ℚ) / 14)
    let val := max 1 (min 99 (yes_prob + noise))
    ({ t := strftimeISO tdt, y := pyRound1 val } : OddsPoint))
  setLastY pts yes_prob

/-- The `yes_prob` lookup (live.py:875-878). -/
def currentProb (m : MarketRecord) : ℚ :=
  match m.outcomes.find? (fun o => o.label = "Yes") with
  | some o => o.probability
  | none =>
    match m.outcomes with
    | o :: _ => o.probability
    | [] => 50

/-- The `label` lookup (live.py:864-867). -/
def labelFor (m : MarketRecord) : String :=
  match m.outcomes.find? (fun o => o.label = "Yes") with
  | some o => o.label
  | none =>
    match m.outcomes with
    | o :: _ => o.label
    | [] => "Yes"

/-- The real-history attempt (live.py:869-871): fetch only when the token
is present and truthy. -/
def historyPtsReal (fetchHistory : String → List OddsPoint) (m : MarketRecord) :
    List OddsPoint :=
  match m.clobTokenId with
  | some tok => if tok = "" then [] else fetchHistory tok
  | none => []

/-- The full per-market series (live.py:869-885): real history when
available, else the synthetic fallback. -/
def historyPtsFor (fetchHistory : String → List OddsPoint) (u : Nat → ℚ)
    (now : PyDateTime) (m : MarketRecord) : List OddsPoint :=
  let real := historyPtsReal fetchHistory m
  if real = [] then synthPts (currentProb m) u now else real

/-- Python dict assignment `d[k] = v`: replace in place or append. -/
def assocSet {α : Type} (k : String) (v : α) : List (String × α) → List (String × α)
  | [] => [(k, v)]
  | p :: rest => if p.1 = k then (k, v) :: rest else p :: assocSet k v rest

/-- `build_odds_history` (live.py:853-893): the odds-history dict keyed by
question, and the market list after the `_clobTokenId` cleanup pass. -/
def build_odds_history (fetchHistory : String → List OddsPoint) (U : Nat → Nat → ℚ)
    (now : PyDateTime) (markets : List MarketRecord) :
    List (String × String × List OddsPoint) × List MarketRecord :=
  let top := markets.take 6
  let oh := top.enum.foldl (fun acc p =>
    assocSet p.2.question (labelFor p.2, historyPtsFor fetchHistory (U p.1) now p.2) acc) []
  (oh, markets.map (fun m => { m with clobTokenId := none }))

/-! ### C6: the synthetic series anchor and range -/

/-- A market whose current probability is 0 (a market trading at zero). -/
def zeroProbMarket : MarketRecord where
  question := "Will there be a US-Iran nuclear deal in 2026?"
  resolutionDate := none
  volume := 0
  volumeFormatted := "$0K"
  outcomes := [⟨"Yes", 0, true⟩]
  status := "active"
  source := "Polymarket"
  url := "https://polymarket.com/event/deal"
  clobTokenId := none

/-! ## Theorems -/

/-! ### Properties of the dedupe pass -/

theorem dedupeNews_keys_nodup : ∀ (l : List Item) (seen : List String),
    ((dedupeNews l seen).map news_dedupe_key).Nodup ∧
      ∀ k ∈ (dedupeNews l seen).map news_dedupe_key, k ∉ seen := by
  intro l
  induction l with
  | nil => intro seen; simp [dedupeNews]
  | cons i rest ih =>
    intro seen
    by_cases h : news_dedupe_key i ∈ seen
    · simpa [dedupeNews, h] using ih seen
    · have h2 := ih (news_dedupe_key i :: seen)
      refine ⟨?_, ?_⟩
      · simp only [dedupeNews, if_neg h, List.map_cons, List.nodup_cons]
        exact ⟨fun hmem => (h2.2 _ hmem) (List.mem_cons_self _ _), h2.1⟩
      · intro k hk
        simp only [dedupeNews, if_neg h, List.map_cons, List.mem_cons] at hk
        rcases hk with rfl | hk
        · exact h
        · exact fun hks => (h2.2 k hk) (List.mem_cons_of_mem _ hks)

theorem dedupeNews_nodup (l : List Item) (seen : List String) :
    (dedupeNews l seen).Nodup :=
  List.Nodup.of_map _ (dedupeNews_keys_nodup l seen).1

theorem dedupeNews_length : ∀ (l : List Item) (seen : List String),
    (dedupeNews l seen).length + seen.toFinset.card
      = ((l.map news_dedupe_key).toFinset ∪ seen.toFinset).card := by
  intro l
  induction l with
  | nil => intro seen; simp [dedupeNews]
  | cons i rest ih =>
    intro seen
    by_cases h : news_dedupe_key i ∈ seen
    · have hset : insert (news_dedupe_key i) ((rest.map news_dedupe_key).toFinset) ∪ seen.toFinset
          = (rest.map news_dedupe_key).toFinset ∪ seen.toFinset := by
        rw [Finset.insert_union]
        exact Finset.insert_eq_self.2 (Finset.mem_union_right _ (List.mem_toFinset.2 h))
      simp only [dedupeNews, if_pos h, List.map_cons, List.toFinset_cons, hset]
      exact ih seen
    · have hcard : (news_dedupe_key i :: seen).toFinset.card = seen.toFinset.card + 1 := by
        simp only [List.toFinset_cons]
        exact Finset.card_insert_of_not_mem (fun hm => h (List.mem_toFinset.1 hm))
      have hset : (rest.map news_dedupe_key).toFinset ∪ (news_dedupe_key i :: seen).toFinset
          = insert (news_dedupe_key i) ((rest.map news_dedupe_key).toFinset) ∪ seen.toFinset := by
        simp only [List.toFinset_cons, Finset.union_insert, Finset.insert_union]
      have hih := ih (news_dedupe_key i :: seen)
      rw [hset, hcard] at hih
      simp only [dedupeNews, if_neg h, List.length_cons, List.map_cons, List.toFinset_cons]
      omega

theorem dedupeNews_length_eq_dedup (l : List Item) :
    (dedupeNews l []).length = ((l.map news_dedupe_key).dedup).length := by
  have h := dedupeNews_length l []
  simpa [List.card_toFinset] using h

theorem dedupeNews_eq_nil (l : List Item) (seen : List String)
    (h : ∀ i ∈ l, news_dedupe_key i ∈ seen) : dedupeNews l seen = [] := by
  induction l with
  | nil => rfl
  | cons i rest ih =>
    simp only [dedupeNews, if_pos (h i (List.mem_cons_self _ _))]
    exact ih (fun j hj => h j (List.mem_cons_of_mem _ hj))

theorem dedupeNews_append : ∀ (l₁ l₂ : List Item) (seen : List String),
    dedupeNews (l₁ ++ l₂) seen = dedupeNews l₁ seen ++ dedupeNews l₂ (seenAfterDedupe l₁ seen) := by
  intro l₁
  induction l₁ with
  | nil => intro l₂ seen; simp [dedupeNews, seenAfterDedupe]
  | cons i rest ih =>
    intro l₂ seen
    by_cases h : news_dedupe_key i ∈ seen
    · simp only [List.cons_append, dedupeNews, if_pos h, seenAfterDedupe]
      exact ih l₂ seen
    · simp only [List.cons_append, dedupeNews, if_neg h, seenAfterDedupe, List.cons_append,
        List.append_eq]
      rw [ih l₂ (news_dedupe_key i :: seen)]

theorem mem_seenAfterDedupe_of_mem : ∀ (l : List Item) (s : List String) (k : String),
    k ∈ s → k ∈ seenAfterDedupe l s := by
  intro l
  induction l with
  | nil => intro s k hk; exact hk
  | cons i rest ih =>
    intro s k hk
    by_cases h : news_dedupe_key i ∈ s
    · simpa [seenAfterDedupe, h] using ih s k hk
    · simp only [seenAfterDedupe, if_neg h]
      exact ih _ k (List.mem_cons_of_mem _ hk)

theorem key_mem_seenAfterDedupe : ∀ (l : List Item) (s : List String) (i : Item),
    i ∈ l → news_dedupe_key i ∈ seenAfterDedupe l s := by
  intro l
  induction l with
  | nil => intro s i hi; cases hi
  | cons j rest ih =>
    intro s i hi
    rcases List.mem_cons.1 hi with rfl | hi
    · by_cases h : news_dedupe_key i ∈ s
      · simpa [seenAfterDedupe, h] using mem_seenAfterDedupe_of_mem rest s _ h
      · simp only [seenAfterDedupe, if_neg h]
        exact mem_seenAfterDedupe_of_mem rest _ _ (List.mem_cons_self _ _)
    · by_cases h : news_dedupe_key j ∈ s
      · simpa [seenAfterDedupe, h] using ih s i hi
      · simp only [seenAfterDedupe, if_neg h]
        exact ih _ i hi

/-! ### Generic list counting helpers -/

theorem length_filter_add_length_filter_not {α : Type} (p : α → Bool) (l : List α) :
    (l.filter p).length + (l.filter (fun a => !(p a))).length = l.length := by
  induction l with
  | nil => rfl
  | cons a l ih =>
    by_cases h : p a <;> simp [List.filter_cons, h] <;> omega

theorem filter_not_mem_length (pool sel : List Item)
    (hp : pool.Nodup) (hs : sel.Nodup) (hsub : sel ⊆ pool) :
    (pool.filter (fun i => !(decide (i ∈ sel)))).length = pool.length - sel.length := by
  have hperm : (pool.filter (fun i => decide (i ∈ sel))).Perm sel := by
    refine (List.perm_ext_iff_of_nodup ((List.filter_sublist _).nodup hp) hs).2 ?_
    intro a
    simp only [List.mem_filter, decide_eq_true_eq]
    exact ⟨fun h => h.2, fun h => ⟨hsub h, h⟩⟩
  have h1 : (pool.filter (fun i => decide (i ∈ sel))).length = sel.length := hperm.length_eq
  have h2 := length_filter_add_length_filter_not (fun i => decide (i ∈ sel)) pool
  omega

/-! ### Properties of the backfill loop -/

theorem backfillNews_length (limit : Int) :
    ∀ (pool sel : List Item), pool.Nodup → (sel.length : Int) ≤ limit →
      (backfillNews limit pool sel).length
        = min limit.toNat (sel.length + (pool.filter (fun i => !(decide (i ∈ sel)))).length) := by
  intro pool
  induction pool with
  | nil =>
    intro sel _ hle
    simp only [backfillNews, List.filter_nil, List.length_nil, Nat.add_zero]
    omega
  | cons i rest ih =>
    intro sel hnd hle
    have hirest : i ∉ rest := (List.nodup_cons.1 hnd).1
    have hrest : rest.Nodup := (List.nodup_cons.1 hnd).2
    by_cases hfull : (sel.length : Int) ≥ limit
    · have hlen : sel.length = limit.toNat := by omega
      simp only [backfillNews, if_pos hfull]
      omega
    · by_cases hmem : i ∈ sel
      · simp only [backfillNews, if_neg hfull, if_pos hmem]
        rw [ih sel hrest hle]
        have : (i :: rest).filter (fun j => !(decide (j ∈ sel)))
            = rest.filter (fun j => !(decide (j ∈ sel))) := by
          simp [List.filter_cons, hmem]
        rw [this]
      · simp only [backfillNews, if_neg hfull, if_neg hmem]
        have hle' : (((sel ++ [i]).length : Nat) : Int) ≤ limit := by
          simp only [List.length_append, List.length_cons, List.length_nil]
          push_cast
          omega
        rw [ih (sel ++ [i]) hrest hle']
        have hfc : rest.filter (fun j => !(decide (j ∈ sel ++ [i])))
            = rest.filter (fun j => !(decide (j ∈ sel))) := by
          refine List.filter_congr ?_
          intro a ha
          have hne : a ≠ i := fun hh => hirest (hh ▸ ha)
          simp [List.mem_append, hne]
        have hfcons : (i :: rest).filter (fun j => !(decide (j ∈ sel)))
            = i :: rest.filter (fun j => !(decide (j ∈ sel))) := by
          simp [List.filter_cons, hmem]
        rw [hfc, hfcons]
        simp only [List.length_append, List.length_cons, List.length_nil]
        omega

theorem backfillNews_length_le (limit : Int) :
    ∀ (pool sel : List Item), (sel.length : Int) ≤ limit →
      ((backfillNews limit pool sel).length : Int) ≤ limit := by
  intro pool
  induction pool with
  | nil => intro sel hle; simpa [backfillNews] using hle
  | cons i rest ih =>
    intro sel hle
    by_cases hfull : (sel.length : Int) ≥ limit
    · simpa [backfillNews, if_pos hfull] using hle
    · by_cases hmem : i ∈ sel
      · simp only [backfillNews, if_neg hfull, if_pos hmem]
        exact ih sel hle
      · simp only [backfillNews, if_neg hfull, if_neg hmem]
        refine ih (sel ++ [i]) ?_
        simp only [List.length_append, List.length_cons, List.length_nil]
        push_cast
        omega

theorem backfillNews_countP_le (limit : Int) (p : Item → Bool) :
    ∀ (pool sel : List Item), sel.countP p ≤ (backfillNews limit pool sel).countP p := by
  intro pool
  induction pool with
  | nil => intro sel; simp [backfillNews]
  | cons i rest ih =>
    intro sel
    by_cases hfull : (sel.length : Int) ≥ limit
    · simp [backfillNews, if_pos hfull]
    · by_cases hmem : i ∈ sel
      · simpa [backfillNews, if_neg hfull, if_pos hmem] using ih sel
      · simp only [backfillNews, if_neg hfull, if_neg hmem]
        refine le_trans ?_ (ih (sel ++ [i]))
        simp [List.countP_append]

theorem merge_eq_stages (rss_items x_items : List Item) (limit : Int) (h : ¬ limit ≤ 0) :
    merge_and_dedupe_news_items rss_items x_items limit
      = (sortByTimeDesc (backfillNews limit (mergePool rss_items x_items)
          (mergeSelected0 rss_items x_items limit))).take limit.toNat := by
  simp only [merge_and_dedupe_news_items, mergePool, mergeSocialPool, mergeReserved,
    mergeSelected0]
  rw [if_neg h]

theorem mergePool_nodup (rss_items x_items : List Item) :
    (mergePool rss_items x_items).Nodup :=
  (List.mergeSort_perm _ _).symm.nodup (dedupeNews_nodup _ _)

theorem mergePool_length (rss_items x_items : List Item) :
    (mergePool rss_items x_items).length
      = ((rss_items ++ x_items).map news_dedupe_key).dedup.length :=
  ((List.mergeSort_perm _ _).length_eq).trans (dedupeNews_length_eq_dedup _)

theorem mergeSocialPool_subset (rss_items x_items : List Item) :
    mergeSocialPool rss_items x_items ⊆ mergePool rss_items x_items := by
  simp only [mergeSocialPool]
  exact (List.filter_sublist _).subset

theorem mergeSelected0_subset (rss_items x_items : List Item) (limit : Int) :
    mergeSelected0 rss_items x_items limit ⊆ mergePool rss_items x_items := by
  intro a ha
  rcases List.mem_append.1 ha with h | h
  · exact (List.filter_sublist _).subset (List.mem_of_mem_take h)
  · exact mergeSocialPool_subset rss_items x_items (List.mem_of_mem_take h)

theorem mergeSelected0_nodup (rss_items x_items : List Item) (limit : Int) :
    (mergeSelected0 rss_items x_items limit).Nodup := by
  have hpool := mergePool_nodup rss_items x_items
  refine List.Nodup.append ?_ ?_ ?_
  · exact ((List.take_sublist _ _).trans (List.filter_sublist _)).nodup hpool
  · exact ((List.take_sublist _ _).trans (List.filter_sublist _)).nodup hpool
  · intro a ha hb
    have h1 : ¬ (a ∈ mergeSocialPool rss_items x_items) := by
      have := (List.mem_filter.1 (List.mem_of_mem_take ha)).2
      simpa using this
    exact h1 (List.mem_of_mem_take hb)

theorem mergeReserved_nonneg (rss_items x_items : List Item) (limit : Int)
    (h : 0 ≤ limit) : 0 ≤ mergeReserved rss_items x_items limit := by
  have hx : (0:Int) ≤ ((mergeSocialPool rss_items x_items).length : Int) := Int.natCast_nonneg _
  simp only [mergeReserved, X_RESERVED_NEWS_SLOTS]
  omega

theorem mergeSelected0_length_le (rss_items x_items : List Item) (limit : Int)
    (h : 0 ≤ limit) :
    ((mergeSelected0 rss_items x_items limit).length : Int) ≤ limit := by
  have h0 := mergeReserved_nonneg rss_items x_items limit h
  have hlim : mergeReserved rss_items x_items limit ≤ limit := min_le_right _ _
  have hxlen : mergeReserved rss_items x_items limit
      ≤ ((mergeSocialPool rss_items x_items).length : Int) :=
    le_trans (min_le_left _ _) (min_le_right _ _)
  simp only [mergeSelected0, List.length_append, List.length_take]
  push_cast
  omega

theorem merge_length_core (rss_items x_items : List Item) (limit : Int) (hpos : 0 < limit) :
    (merge_and_dedupe_news_items rss_items x_items limit).length
      = min limit.toNat (((rss_items ++ x_items).map news_dedupe_key).dedup.length) := by
  have hnot : ¬ limit ≤ 0 := by omega
  have hpool := mergePool_nodup rss_items x_items
  have hs0nodup := mergeSelected0_nodup rss_items x_items limit
  have hs0sub := mergeSelected0_subset rss_items x_items limit
  have hs0le := mergeSelected0_length_le rss_items x_items limit (le_of_lt hpos)
  have hs0lenu : (mergeSelected0 rss_items x_items limit).length
      ≤ (mergePool rss_items x_items).length :=
    (List.subperm_of_subset hs0nodup hs0sub).length_le
  have hback := backfillNews_length limit (mergePool rss_items x_items)
    (mergeSelected0 rss_items x_items limit) hpool hs0le
  rw [filter_not_mem_length _ _ hpool hs0nodup hs0sub] at hback
  rw [merge_eq_stages rss_items x_items limit hnot]
  rw [List.length_take]
  simp only [sortByTimeDesc, List.length_mergeSort]
  rw [hback, ← mergePool_length rss_items x_items]
  omega

/-- C3: for every pair of input lists and every `limit ≥ 0`,
`merge_and_dedupe_news_items` returns at most `limit` items and at least
`min(limit, D)` items, where `D` is the number of distinct dedupe keys
among the concatenated inputs, and it returns normally (`[]`) on empty
inputs. -/
theorem merge_and_dedupe_length_bounds (rss_items x_items : List Item) (limit : Int)
    (hlim : 0 ≤ limit) :
    ((merge_and_dedupe_news_items rss_items x_items limit).length : Int) ≤ limit
    ∧ min limit.toNat (((rss_items ++ x_items).map news_dedupe_key).dedup.length)
        ≤ (merge_and_dedupe_news_items rss_items x_items limit).length
    ∧ merge_and_dedupe_news_items ([] : List Item) ([] : List Item) limit = [] := by
  by_cases hpos : 0 < limit
  · have hcore := merge_length_core rss_items x_items limit hpos
    have hempty := merge_length_core [] [] limit hpos
    refine ⟨?_, ?_, ?_⟩
    · rw [hcore]; omega
    · rw [hcore]
    · refine List.length_eq_zero.1 ?_
      rw [hempty]
      simp [dedupeNews]
  · have hz : limit = 0 := by omega
    subst hz
    simp [merge_and_dedupe_news_items]

theorem merge_and_dedupe_length_bounds_witness :
    ((merge_and_dedupe_news_items [sampleRssItem] [sampleXItem] 1).length : Int) ≤ 1
    ∧ min (1:Int).toNat
        ((([sampleRssItem] ++ [sampleXItem]).map news_dedupe_key).dedup.length)
        ≤ (merge_and_dedupe_news_items [sampleRssItem] [sampleXItem] 1).length
    ∧ merge_and_dedupe_news_items ([] : List Item) ([] : List Item) 1 = [] :=
  merge_and_dedupe_length_bounds [sampleRssItem] [sampleXItem] 1 (by norm_num)

/-- C8: deduplication is idempotent — merging a list with itself gives the
same result as merging it with the empty list. -/
theorem merge_and_dedupe_idempotent (l : List Item) (limit : Int) :
    merge_and_dedupe_news_items l l limit = merge_and_dedupe_news_items l [] limit := by
  have h1 : dedupeNews (l ++ l) [] = dedupeNews (l ++ []) [] := by
    rw [dedupeNews_append, dedupeNews_append]
    rw [dedupeNews_eq_nil l (seenAfterDedupe l [])
      (fun i hi => key_mem_seenAfterDedupe l [] i hi)]
    rw [dedupeNews_eq_nil [] (seenAfterDedupe l []) (by intro i hi; cases hi)]
  simp only [merge_and_dedupe_news_items, h1]

/-- C4: if the deduplicated pool holds at least 5 social-origin items, the
result of `merge_and_dedupe_news_items` at the default limit 25 holds at
least 5 social-origin items. -/
theorem merge_and_dedupe_social_floor (rss_items x_items : List Item)
    (hsoc : 5 ≤ ((dedupeNews (rss_items ++ x_items) []).filter socialOrigin).length) :
    5 ≤ ((merge_and_dedupe_news_items rss_items x_items 25).filter socialOrigin).length := by
  have hperm : (mergePool rss_items x_items).Perm (dedupeNews (rss_items ++ x_items) []) :=
    List.mergeSort_perm _ _
  have hxu_len : 5 ≤ (mergeSocialPool rss_items x_items).length := by
    have h1 : (mergeSocialPool rss_items x_items).length
        = List.countP socialOrigin (mergePool rss_items x_items) :=
      (List.countP_eq_length_filter _ _).symm
    have h2 : List.countP socialOrigin (mergePool rss_items x_items)
        = List.countP socialOrigin (dedupeNews (rss_items ++ x_items) []) :=
      hperm.countP_eq _
    rw [h1, h2, List.countP_eq_length_filter]
    exact hsoc
  have hres : mergeReserved rss_items x_items 25 = 5 := by
    have hx : (5:Int) ≤ ((mergeSocialPool rss_items x_items).length : Int) := by
      exact_mod_cast hxu_len
    simp only [mergeReserved, X_RESERVED_NEWS_SLOTS]
    omega
  have hcount0 : 5 ≤ List.countP socialOrigin (mergeSelected0 rss_items x_items 25) := by
    have htake : List.countP socialOrigin ((mergeSocialPool rss_items x_items).take 5)
        = ((mergeSocialPool rss_items x_items).take 5).length := by
      refine List.countP_eq_length.2 ?_
      intro a ha
      exact (List.mem_filter.1 (List.mem_of_mem_take ha)).2
    have hlen5 : ((mergeSocialPool rss_items x_items).take 5).length = 5 := by
      rw [List.length_take]
      omega
    have hres5 : (mergeReserved rss_items x_items 25).toNat = 5 := by
      rw [hres]
      rfl
    simp only [mergeSelected0, List.countP_append, hres5]
    omega
  have hback : 5 ≤ List.countP socialOrigin
      (backfillNews 25 (mergePool rss_items x_items) (mergeSelected0 rss_items x_items 25)) :=
    le_trans hcount0 (backfillNews_countP_le 25 socialOrigin _ _)
  have hs0le := mergeSelected0_length_le rss_items x_items 25 (by norm_num)
  have hblen : ((backfillNews 25 (mergePool rss_items x_items)
      (mergeSelected0 rss_items x_items 25)).length : Int) ≤ 25 :=
    backfillNews_length_le 25 _ _ hs0le
  have hfinal := merge_eq_stages rss_items x_items 25 (by norm_num)
  rw [hfinal]
  have hsortlen : (sortByTimeDesc (backfillNews 25 (mergePool rss_items x_items)
      (mergeSelected0 rss_items x_items 25))).length
      = (backfillNews 25 (mergePool rss_items x_items)
          (mergeSelected0 rss_items x_items 25)).length := by
    simp [sortByTimeDesc, List.length_mergeSort]
  have htakeall : (sortByTimeDesc (backfillNews 25 (mergePool rss_items x_items)
      (mergeSelected0 rss_items x_items 25))).take (25:Int).toNat
      = sortByTimeDesc (backfillNews 25 (mergePool rss_items x_items)
          (mergeSelected0 rss_items x_items 25)) := by
    refine List.take_of_length_le ?_
    rw [hsortlen]
    omega
  rw [htakeall, ← List.countP_eq_length_filter]
  have hsortperm : (sortByTimeDesc (backfillNews 25 (mergePool rss_items x_items)
      (mergeSelected0 rss_items x_items 25))).Perm
      (backfillNews 25 (mergePool rss_items x_items)
        (mergeSelected0 rss_items x_items 25)) :=
    List.mergeSort_perm _ _
  rw [hsortperm.countP_eq]
  exact hback

theorem merge_and_dedupe_social_floor_witness :
    5 ≤ ((merge_and_dedupe_news_items [sampleRssItem]
        [sampleXItemN 1, sampleXItemN 2, sampleXItemN 3, sampleXItemN 4, sampleXItemN 5]
        25).filter socialOrigin).length :=
  merge_and_dedupe_social_floor [sampleRssItem]
    [sampleXItemN 1, sampleXItemN 2, sampleXItemN 3, sampleXItemN 4, sampleXItemN 5]
    (by decide)

/-! ### String/char support lemmas for the reranker claims -/

theorem dropWhile_head_not {p : Char → Bool} :
    ∀ (l : List Char) (c : Char), (l.dropWhile p).head? = some c → p c = false := by
  intro l
  induction l with
  | nil => intro c h; simp [List.dropWhile] at h
  | cons a t ih =>
    intro c h
    by_cases ha : p a
    · rw [List.dropWhile_cons, if_pos ha] at h
      exact ih c h
    · rw [List.dropWhile_cons, if_neg ha] at h
      simp only [List.head?_cons, Option.some.injEq] at h
      subst h
      simpa using ha

theorem dropWhile_idem {p : Char → Bool} (l : List Char) :
    (l.dropWhile p).dropWhile p = l.dropWhile p := by
  cases h : l.dropWhile p with
  | nil => rfl
  | cons c t =>
    have hc : p c = false := dropWhile_head_not l c (by rw [h]; rfl)
    rw [List.dropWhile_cons, if_neg (by simp [hc])]

theorem dropWhile_isSuffix {p : Char → Bool} :
    ∀ l : List Char, ∃ t, t ++ l.dropWhile p = l := by
  intro l
  induction l with
  | nil => exact ⟨[], rfl⟩
  | cons a r ih =>
    by_cases ha : p a
    · obtain ⟨t, ht⟩ := ih
      exact ⟨a :: t, by rw [List.dropWhile_cons, if_pos ha, List.cons_append, ht]⟩
    · exact ⟨[], by rw [List.dropWhile_cons, if_neg ha, List.nil_append]⟩

theorem length_dropWhile_le {p : Char → Bool} (l : List Char) :
    (l.dropWhile p).length ≤ l.length := by
  obtain ⟨t, ht⟩ := dropWhile_isSuffix (p := p) l
  have hlen := congrArg List.length ht
  simp only [List.length_append] at hlen
  omega

theorem pyStrip_idem (s : String) : pyStrip (pyStrip s) = pyStrip s := by
  unfold pyStrip
  have hdata : ∀ l : List Char, (String.mk l).data = l := fun _ => rfl
  rw [hdata]
  set A := s.data.dropWhile Char.isWhitespace with hA
  set B := A.reverse.dropWhile Char.isWhitespace with hB
  have hAdrop : A.dropWhile Char.isWhitespace = A := by rw [hA]; exact dropWhile_idem _
  obtain ⟨u, hu⟩ := dropWhile_isSuffix (p := Char.isWhitespace) A.reverse
  have hArev : A = B.reverse ++ u.reverse := by
    have := congrArg List.reverse hu
    simpa [List.reverse_append] using this.symm
  have hstep1 : B.reverse.dropWhile Char.isWhitespace = B.reverse := by
    cases hr : B.reverse with
    | nil => rfl
    | cons c t =>
      have hcfalse : Char.isWhitespace c = false := by
        by_contra hc
        have hc' : Char.isWhitespace c = true := by
          revert hc; cases Char.isWhitespace c <;> simp
        have hAc : A = c :: (t ++ u.reverse) := by rw [hArev, hr]; rfl
        have := hAdrop
        rw [hAc, List.dropWhile_cons, if_pos hc'] at this
        have hlen := congrArg List.length this
        rw [List.length_cons] at hlen
        have hle := length_dropWhile_le (p := Char.isWhitespace) (t ++ u.reverse)
        omega
      rw [List.dropWhile_cons, if_neg (by simp [hcfalse])]
  rw [hstep1, List.reverse_reverse, hB, dropWhile_idem]

theorem filterLlmText_stripped (d : AnthropicData) (t : String)
    (h : filterLlmText d = some t) : pyStrip t = t := by
  cases d with
  | notDict => simp [filterLlmText] at h
  | dict content =>
    simp only [filterLlmText, Option.some.injEq] at h
    rw [← h]
    exact pyStrip_idem _

theorem pyUpper_empty : pyUpper "" = "" := rfl

theorem parse_llm_none_eq_nil (t : String) (n : Nat)
    (hstrip : pyStrip t = t) (hnone : pyUpper t = "NONE") :
    parse_llm_relevant_indices t n = [] := by
  have hne : t ≠ "" := by
    intro h
    rw [h, pyUpper_empty] at hnone
    exact absurd hnone (by decide)
  simp only [parse_llm_relevant_indices, hstrip]
  rw [if_neg hne, if_pos hnone]

theorem toUpper_eq_of_isDigit (c : Char) (h : c.isDigit = true) : c.toUpper = c := by
  simp only [Char.isDigit, Bool.and_eq_true, decide_eq_true_eq] at h
  obtain ⟨h1, h2⟩ := h
  simp only [UInt32.le_def, BitVec.le_def] at h1 h2
  simp only [Char.toUpper, Char.toNat]
  rw [if_neg]
  rintro ⟨h3, h4⟩
  have hb : (UInt32.toBitVec 48).toNat = 48 := by decide
  have hd : (UInt32.toBitVec 57).toNat = 57 := by decide
  have hc : c.val.toNat = c.val.toBitVec.toNat := rfl
  omega

theorem no_digit_of_pyUpper_none (t : String) (h : pyUpper t = "NONE") :
    ∀ c ∈ t.data, c.isDigit = false := by
  intro c hc
  by_contra hdig
  have hdig' : c.isDigit = true := by
    revert hdig; cases c.isDigit <;> simp
  have hup : Char.toUpper c = c := toUpper_eq_of_isDigit c hdig'
  have hmap : t.data.map Char.toUpper = "NONE".data := congrArg String.data h
  have hmem : Char.toUpper c ∈ "NONE".data := hmap ▸ List.mem_map_of_mem _ hc
  rw [hup] at hmem
  have hcases : c = 'N' ∨ c = 'O' ∨ c = 'N' ∨ c = 'E' := by
    simpa using hmem
  rcases hcases with rfl | rfl | rfl | rfl <;> exact absurd hdig' (by decide)

theorem digitRunsAux_no_digits :
    ∀ (cs : List Char), (∀ c ∈ cs, c.isDigit = false) → digitRunsAux cs [] = [] := by
  intro cs
  induction cs with
  | nil => intro _; rfl
  | cons c rest ih =>
    intro h
    have hc : c.isDigit = false := h c (List.mem_cons_self _ _)
    simp only [digitRunsAux, hc, Bool.false_eq_true, if_false, List.isEmpty_nil, if_true]
    exact ih (fun x hx => h x (List.mem_cons_of_mem _ hx))

theorem extract_ranked_ids_of_upper_none (t : String) (mc mi : Nat)
    (h : pyUpper t = "NONE") : extract_ranked_ids t mc mi = [] := by
  by_cases ht : t = ""
  · simp [extract_ranked_ids, ht]
  · simp only [extract_ranked_ids, if_neg ht, digitRuns]
    rw [digitRunsAux_no_digits _ (no_digit_of_pyUpper_none t h)]
    rfl

theorem parseIndicesLoop_lt (total : Nat) :
    ∀ (toks : List (List Char)) (acc : List Nat), (∀ i ∈ acc, i < total) →
      ∀ i ∈ parseIndicesLoop total toks acc, i < total := by
  intro toks
  induction toks with
  | nil => intro acc hacc; exact hacc
  | cons tok rest ih =>
    intro acc hacc i hi
    simp only [parseIndicesLoop] at hi
    by_cases hd : isDigits (pyStrip (String.mk tok)).data
    · simp only [hd, Bool.not_true, Bool.false_eq_true, if_false] at hi
      by_cases hg : 1 ≤ digitsToNat (pyStrip (String.mk tok)).data
          ∧ digitsToNat (pyStrip (String.mk tok)).data - 1 < total
          ∧ digitsToNat (pyStrip (String.mk tok)).data - 1 ∉ acc
      · rw [if_pos hg] at hi
        refine ih _ ?_ i hi
        intro j hj
        rcases List.mem_append.1 hj with hj | hj
        · exact hacc j hj
        · simp only [List.mem_singleton] at hj
          rw [hj]
          exact hg.2.1
      · rw [if_neg hg] at hi
        exact ih _ hacc i hi
    · simp only [hd, Bool.not_false, if_true] at hi
      exact ih _ hacc i hi

theorem parse_llm_relevant_indices_lt (t : String) (n : Nat) :
    ∀ i ∈ parse_llm_relevant_indices t n, i < n := by
  intro i hi
  simp only [parse_llm_relevant_indices] at hi
  by_cases h1 : pyStrip t = ""
  · rw [if_pos h1] at hi; cases hi
  · rw [if_neg h1] at hi
    by_cases h2 : pyUpper (pyStrip t) = "NONE"
    · rw [if_pos h2] at hi; cases hi
    · rw [if_neg h2] at hi
      exact parseIndicesLoop_lt n _ [] (by intro j hj; cases hj) i hi

/-! ### C2: ambiguous failures are passthrough -/

/-- C2: for every input item list, if the API key is absent, or the model
call fails with an HTTP error or a network error, or the reply cannot be
parsed into valid indices, `filter_x_items_with_llm` returns its input
unchanged and records the failure-identifying outcome tag (for the empty
input list the recorded tag is `"no_items"`, so the tag conjuncts assume a
non-empty input). -/
theorem filter_x_ambiguous_failure_passthrough (apiKeyEnv modelEnv : Option String)
    (items : List Item) :
    (∀ call : UrlOpenResult, pyStrip (apiKeyEnv.getD "") = "" →
      (filter_x_items_with_llm apiKeyEnv modelEnv call items).1 = items
      ∧ (items ≠ [] →
        (filter_x_items_with_llm apiKeyEnv modelEnv call items).2.result = "no_api_key"))
    ∧ (pyStrip (apiKeyEnv.getD "") ≠ "" → items ≠ [] →
      (∀ code body,
        (filter_x_items_with_llm apiKeyEnv modelEnv (.httpError code body) items).1 = items
        ∧ (filter_x_items_with_llm apiKeyEnv modelEnv (.httpError code body) items).2.result
            = "http_" ++ toString code ++ "_passthrough")
      ∧ (∀ reason,
        (filter_x_items_with_llm apiKeyEnv modelEnv (.urlError reason) items).1 = items
        ∧ (filter_x_items_with_llm apiKeyEnv modelEnv (.urlError reason) items).2.result
            = "network_error_passthrough")
      ∧ (∀ msg,
        (filter_x_items_with_llm apiKeyEnv modelEnv (.otherError msg) items).1 = items
        ∧ (filter_x_items_with_llm apiKeyEnv modelEnv (.otherError msg) items).2.result
            = "request_failed_passthrough")
      ∧ ((filter_x_items_with_llm apiKeyEnv modelEnv (.ok none) items).1 = items
        ∧ (filter_x_items_with_llm apiKeyEnv modelEnv (.ok none) items).2.result
            = "parse_failed_passthrough")
      ∧ (∀ d, filterLlmText d = none →
        (filter_x_items_with_llm apiKeyEnv modelEnv (.ok (some d)) items).1 = items
        ∧ (filter_x_items_with_llm apiKeyEnv modelEnv (.ok (some d)) items).2.result
            = "parse_failed_passthrough")
      ∧ (∀ d t, filterLlmText d = some t →
        parse_llm_relevant_indices t items.length = [] → pyUpper t ≠ "NONE" →
        (filter_x_items_with_llm apiKeyEnv modelEnv (.ok (some d)) items).1 = items
        ∧ (filter_x_items_with_llm apiKeyEnv modelEnv (.ok (some d)) items).2.result
            = "unparseable_passthrough")) := by
  constructor
  · intro call hkey
    by_cases hitems : items = []
    · subst hitems
      exact ⟨by simp [filter_x_items_with_llm], fun h => absurd rfl h⟩
    · exact ⟨by simp [filter_x_items_with_llm, hitems, hkey],
        fun _ => by simp [filter_x_items_with_llm, hitems, hkey]⟩
  · intro hkey hitems
    refine ⟨?_, ?_, ?_, ?_, ?_, ?_⟩
    · intro code body
      exact ⟨by simp [filter_x_items_with_llm, hitems, hkey],
        by simp [filter_x_items_with_llm, hitems, hkey]⟩
    · intro reason
      exact ⟨by simp [filter_x_items_with_llm, hitems, hkey],
        by simp [filter_x_items_with_llm, hitems, hkey]⟩
    · intro msg
      exact ⟨by simp [filter_x_items_with_llm, hitems, hkey],
        by simp [filter_x_items_with_llm, hitems, hkey]⟩
    · exact ⟨by simp [filter_x_items_with_llm, hitems, hkey],
        by simp [filter_x_items_with_llm, hitems, hkey]⟩
    · intro d hd
      exact ⟨by simp [filter_x_items_with_llm, hitems, hkey, hd],
        by simp [filter_x_items_with_llm, hitems, hkey, hd]⟩
    · intro d t hd hparse hnone
      exact ⟨by simp [filter_x_items_with_llm, hitems, hkey, hd, hparse, hnone],
        by simp [filter_x_items_with_llm, hitems, hkey, hd, hparse, hnone]⟩

theorem filter_x_ambiguous_failure_passthrough_witness :
    (filter_x_items_with_llm (some "test-key") none (.httpError 401 none) [sampleXItem]).1
      = [sampleXItem]
    ∧ (filter_x_items_with_llm (some "test-key") none (.httpError 401 none)
        [sampleXItem]).2.result = "http_401_passthrough" :=
  ((filter_x_ambiguous_failure_passthrough (some "test-key") none [sampleXItem]).2
    (by decide) (by decide)).1 401 none

/-- C1 counterexample: in the market pipeline a literal `NONE` reply does
not give an empty selection — `select_markets_for_dashboard` falls back to
the deterministic head of the candidate pool. -/
theorem none_reply_market_not_empty :
    select_markets_for_dashboard (some "test-key") (.ok (some noneReplyData)) [sampleMarket] 6
      = [sampleMarket]
    ∧ select_markets_for_dashboard (some "test-key") (.ok (some noneReplyData)) [sampleMarket] 6
      ≠ [] := by
  constructor
  · decide
  · decide

/-- C1 (amended): a literal `NONE` reply empties the social-post pipeline
(`filter_x_items_with_llm`) and is the only reply honored that way there;
in the market pipeline the same reply yields no ranked ids, and
`select_markets_for_dashboard` falls back to the deterministic first
`max_keep` candidates instead of an empty result. -/
theorem none_reply_reranker_behavior (apiKeyEnv modelEnv rkey : Option String)
    (items : List Item) (d : AnthropicData) (t : String)
    (markets : List MarketRecord) (maxKeep : Nat) :
    (pyStrip (apiKeyEnv.getD "") ≠ "" → items ≠ [] → filterLlmText d = some t →
      pyUpper t = "NONE" →
      (filter_x_items_with_llm apiKeyEnv modelEnv (.ok (some d)) items).1 = []
      ∧ (filter_x_items_with_llm apiKeyEnv modelEnv (.ok (some d)) items).2.result
          = "filtered_none")
    ∧ (∀ call : UrlOpenResult, items ≠ [] →
      (filter_x_items_with_llm apiKeyEnv modelEnv call items).1 = [] →
      ∃ d' t', call = .ok (some d') ∧ filterLlmText d' = some t' ∧ pyUpper t' = "NONE")
    ∧ (rkey.getD "" ≠ "" → markets ≠ [] →
      pyUpper (extract_anthropic_message_text d) = "NONE" →
      select_markets_for_dashboard rkey (.ok (some d)) markets maxKeep
        = (markets.take 20).take maxKeep) := by
  refine ⟨?_, ?_, ?_⟩
  · intro hkey hitems hd hnone
    have hparse : parse_llm_relevant_indices t items.length = [] :=
      parse_llm_none_eq_nil t items.length (filterLlmText_stripped d t hd) hnone
    exact ⟨by simp [filter_x_items_with_llm, hitems, hkey, hd, hparse, hnone],
      by simp [filter_x_items_with_llm, hitems, hkey, hd, hparse, hnone]⟩
  · intro call hitems hout
    by_cases hkey : pyStrip (apiKeyEnv.getD "") = ""
    · exact absurd ((by simp [filter_x_items_with_llm, hitems, hkey] :
        (filter_x_items_with_llm apiKeyEnv modelEnv call items).1 = items).symm.trans hout)
        hitems
    · cases call with
      | httpError code body =>
        exact absurd ((by simp [filter_x_items_with_llm, hitems, hkey] :
          (filter_x_items_with_llm apiKeyEnv modelEnv (.httpError code body) items).1
            = items).symm.trans hout) hitems
      | urlError reason =>
        exact absurd ((by simp [filter_x_items_with_llm, hitems, hkey] :
          (filter_x_items_with_llm apiKeyEnv modelEnv (.urlError reason) items).1
            = items).symm.trans hout) hitems
      | otherError msg =>
        exact absurd ((by simp [filter_x_items_with_llm, hitems, hkey] :
          (filter_x_items_with_llm apiKeyEnv modelEnv (.otherError msg) items).1
            = items).symm.trans hout) hitems
      | ok decoded =>
        cases decoded with
        | none =>
          exact absurd ((by simp [filter_x_items_with_llm, hitems, hkey] :
            (filter_x_items_with_llm apiKeyEnv modelEnv (.ok none) items).1
              = items).symm.trans hout) hitems
        | some d' =>
          cases hft : filterLlmText d' with
          | none =>
            exact absurd ((by simp [filter_x_items_with_llm, hitems, hkey, hft] :
              (filter_x_items_with_llm apiKeyEnv modelEnv (.ok (some d')) items).1
                = items).symm.trans hout) hitems
          | some t' =>
            by_cases hcond : parse_llm_relevant_indices t' items.length = []
                ∧ pyUpper t' = "NONE"
            · exact ⟨d', t', rfl, hft, hcond.2⟩
            · by_cases hidx : parse_llm_relevant_indices t' items.length = []
              · have hnone : pyUpper t' ≠ "NONE" := fun h => hcond ⟨hidx, h⟩
                exact absurd ((by
                  simp [filter_x_items_with_llm, hitems, hkey, hft, hidx, hnone] :
                  (filter_x_items_with_llm apiKeyEnv modelEnv (.ok (some d')) items).1
                    = items).symm.trans hout) hitems
              · exfalso
                obtain ⟨i, rest, heq⟩ := List.exists_cons_of_ne_nil hidx
                have hi : i < items.length :=
                  parse_llm_relevant_indices_lt t' items.length i
                    (heq ▸ List.mem_cons_self i rest)
                have h1 : (filter_x_items_with_llm apiKeyEnv modelEnv
                    (.ok (some d')) items).1
                    = (parse_llm_relevant_indices t' items.length).filterMap
                        (fun idx => items[idx]?) := by
                  simp [filter_x_items_with_llm, hitems, hkey, hft, hcond, hidx]
                rw [h1, heq, List.filterMap_cons, List.getElem?_eq_getElem hi] at hout
                cases hout
  · intro hk hm hnone
    have hrank : llm_rank_market_ids rkey (.ok (some (d))) (markets.take 20) maxKeep = [] := by
      simp only [llm_rank_market_ids]
      by_cases hcond : rkey.getD "" = "" ∨ markets.take 20 = []
      · rw [if_pos hcond]
      · rw [if_neg hcond]
        exact extract_ranked_ids_of_upper_none _ _ _ hnone
    simp only [select_markets_for_dashboard, hrank]
    rw [if_neg hm]
    simp

theorem none_reply_reranker_behavior_witness :
    ((filter_x_items_with_llm (some "test-key") none (.ok (some noneReplyData))
        [sampleXItem]).1 = []
      ∧ (filter_x_items_with_llm (some "test-key") none (.ok (some noneReplyData))
        [sampleXItem]).2.result = "filtered_none")
    ∧ select_markets_for_dashboard (some "test-key") (.ok (some noneReplyData))
        [sampleMarket] 6 = ([sampleMarket].take 20).take 6 :=
  ⟨(none_reply_reranker_behavior (some "test-key") none (some "test-key") [sampleXItem]
      noneReplyData "NONE" [sampleMarket] 6).1 (by decide) (by decide) (by decide) (by decide),
   (none_reply_reranker_behavior (some "test-key") none (some "test-key") [sampleXItem]
      noneReplyData "NONE" [sampleMarket] 6).2.2 (by decide) (by decide) (by decide)⟩

theorem processEvent_sevenActive : processEvent sevenActiveEvent = some sevenActiveRecord := by
  have hrel : is_relevant_market_title "Will Iran close the Strait of Hormuz by 2027?"
      = true := by decide
  simp [processEvent, sevenActiveEvent, sevenActiveRecord, activeUnitSubMarket, hrel,
    resolutionDateOf, subMarketVolume, formatVolume, fmtFixed0, pyRound1, bankersRoundZ,
    List.replicate]
  norm_num
  have hfract : Int.fract ((3:ℚ)/500) < 1/2 := by norm_num [Int.fract]
  rw [if_pos hfract]
  rfl

theorem fetchPolymarketEvents_sevenActive :
    fetchPolymarketEvents [sevenActiveEvent] = [sevenActiveRecord] := by
  simp [fetchPolymarketEvents, processEvent_sevenActive]

/-- C5 counterexample: the emitted volume misses active sub-markets beyond
the sixth — an event with 7 active volume-1 sub-markets is emitted with
volume 6, not the full sum 7. -/
theorem fetch_polymarket_volume_not_full_sum :
    (fetchPolymarketEvents [sevenActiveEvent]).map MarketRecord.volume = [6]
    ∧ (sevenActiveEvent.markets.map subMarketVolume).sum = 7
    ∧ (6 : ℚ) ≠ 7 := by
  refine ⟨?_, ?_, by norm_num⟩
  · rw [fetchPolymarketEvents_sevenActive]
    rfl
  · simp [sevenActiveEvent, activeUnitSubMarket, subMarketVolume, List.sum_replicate]
    norm_num

/-- C5 (amended): for every retained market event, the emitted volume is
the sum of the volumes of the first 6 active sub-markets plus the volumes
of all closed sub-markets (active sub-markets beyond the sixth do not
contribute). -/
theorem fetch_polymarket_volume_formula (events : List PolyEvent) (r : MarketRecord)
    (hr : r ∈ fetchPolymarketEvents events) :
    ∃ e ∈ events, processEvent e = some r
      ∧ r.volume = ((((e.markets.filter (fun m => !m.closed)).take 6).map subMarketVolume).sum
          + ((e.markets.filter (fun m => m.closed)).map subMarketVolume).sum) := by
  have hmem : r ∈ events.filterMap processEvent := by
    simpa [fetchPolymarketEvents, List.mem_mergeSort] using hr
  obtain ⟨e, he, hpe⟩ := List.mem_filterMap.1 hmem
  refine ⟨e, he, hpe, ?_⟩
  simp only [processEvent] at hpe
  split at hpe
  · exact Option.noConfusion hpe
  · split at hpe
    · exact Option.noConfusion hpe
    · rw [← Option.some.inj hpe]

theorem fetch_polymarket_volume_formula_witness :
    ∃ e ∈ [sevenActiveEvent], processEvent e = some sevenActiveRecord
      ∧ sevenActiveRecord.volume
        = ((((e.markets.filter (fun m => !m.closed)).take 6).map subMarketVolume).sum
          + ((e.markets.filter (fun m => m.closed)).map subMarketVolume).sum) :=
  fetch_polymarket_volume_formula [sevenActiveEvent] sevenActiveRecord
    (by rw [fetchPolymarketEvents_sevenActive]; exact List.mem_cons_self _ _)

theorem normalize_date_eq_parse (s : String) :
    normalize_date s
      = (normalizeParse s).map (fun dt => strftimeISO (astimezoneUtcNaive dt)) := by
  unfold normalize_date normalizeParse
  by_cases h : s = ""
  · simp [h]
  · simp only [if_neg h]
    cases fromisoformat (String.mk (replaceZ (pyStrip s).data)) with
    | some dt => simp
    | none =>
      cases strptimeFormats (pyStrip s) with
      | some dt => simp
      | none => simp

/-- C9: `normalize_date` converts to UTC only when the input carries an
explicit offset — any input parsing to a naive datetime is formatted
directly (same civil fields, `Z` suffix), with no conversion. -/
theorem normalize_date_naive_identity (s : String) (dt : PyDateTime)
    (hparse : normalizeParse s = some dt) (hnaive : dt.offsetSeconds = none) :
    normalize_date s = some (strftimeISO dt) := by
  rw [normalize_date_eq_parse, hparse]
  simp [astimezoneUtcNaive, hnaive]

theorem normalize_date_naive_identity_witness :
    normalize_date "2026-02-28 10:00:00"
      = some (strftimeISO ⟨2026, 2, 28, 10, 0, 0, 0, none⟩) :=
  normalize_date_naive_identity "2026-02-28 10:00:00" ⟨2026, 2, 28, 10, 0, 0, 0, none⟩
    (by decide) rfl

/-- C10: `parse_rss` processes at most the first `max_items` entries, so a
feed contributes at most `max_items` items — and via `fetch_one_feed`'s
`max_items=10`, at most 10 items per source per aggregation cycle. -/
theorem parse_rss_at_most_max_items (md5hex : String → String) (nowIso : String)
    (doc : Option (List XmlEntry)) (source_name tag_type : String) (max_items : Nat) :
    (parse_rss md5hex nowIso doc source_name tag_type max_items).length ≤ max_items
    ∧ (fetch_one_feed md5hex nowIso doc source_name tag_type).length ≤ 10 := by
  have hgen : ∀ n, (parse_rss md5hex nowIso doc source_name tag_type n).length ≤ n := by
    intro n
    cases doc with
    | none => simp [parse_rss]
    | some entries =>
      calc (parse_rss md5hex nowIso (some entries) source_name tag_type n).length
          ≤ (entries.take n).length := List.length_filterMap_le _ _
        _ ≤ n := by
            rw [List.length_take]
            omega
  exact ⟨hgen max_items, hgen 10⟩

/-! ### C6/C7 support lemmas -/

theorem setLastY_ne_nil (l : List OddsPoint) (p : ℚ) (h : l ≠ []) : setLastY l p ≠ [] := by
  cases l with
  | nil => exact absurd rfl h
  | cons a rest => cases rest <;> simp [setLastY]

theorem setLastY_getLast_y : ∀ (l : List OddsPoint) (p : ℚ), l ≠ [] →
    ((setLastY l p).getLast?).map OddsPoint.y = some p := by
  intro l
  induction l with
  | nil => intro p h; exact absurd rfl h
  | cons a rest ih =>
    intro p _
    cases rest with
    | nil => simp [setLastY]
    | cons b rest' =>
      have hih := ih p (by simp)
      obtain ⟨c, l', hcl⟩ :=
        List.exists_cons_of_ne_nil (setLastY_ne_nil (b :: rest') p (by simp))
      simp only [setLastY]
      rw [hcl, List.getLast?_cons_cons, ← hcl]
      exact hih

theorem setLastY_dropLast : ∀ (l : List OddsPoint) (p : ℚ),
    (setLastY l p).dropLast = l.dropLast := by
  intro l
  induction l with
  | nil => intro p; rfl
  | cons a rest ih =>
    intro p
    cases rest with
    | nil => rfl
    | cons b rest' =>
      obtain ⟨c, l', hcl⟩ :=
        List.exists_cons_of_ne_nil (setLastY_ne_nil (b :: rest') p (by simp))
      simp only [setLastY]
      rw [hcl, List.dropLast_cons₂, ← hcl, ih, List.dropLast_cons₂]

theorem bankersRoundZ_bounds (lo hi : ℤ) (q : ℚ) (hlo : (lo:ℚ) ≤ q) (hhi : q ≤ (hi:ℚ)) :
    lo ≤ bankersRoundZ q ∧ bankersRoundZ q ≤ hi := by
  have hfl : lo ≤ ⌊q⌋ := Int.le_floor.2 hlo
  have hfu : ⌊q⌋ ≤ hi := by
    have h := Int.floor_le_floor hhi
    simpa using h
  have hflr : (⌊q⌋ : ℚ) ≤ q := Int.floor_le q
  simp only [bankersRoundZ]
  split_ifs with h1 h2 h3
  · exact ⟨hfl, hfu⟩
  · refine ⟨by omega, ?_⟩
    by_contra hcon
    push_neg at hcon
    have hfe : ⌊q⌋ = hi := by omega
    rw [hfe] at h2
    linarith
  · exact ⟨hfl, hfu⟩
  · refine ⟨by omega, ?_⟩
    by_contra hcon
    push_neg at hcon
    have hfe : ⌊q⌋ = hi := by omega
    have hr : q - (⌊q⌋ : ℚ) = 1/2 := le_antisymm (not_lt.1 h2) (not_lt.1 h1)
    rw [hfe] at hr
    linarith

theorem pyRound1_bounds (v : ℚ) (h1 : 1 ≤ v) (h2 : v ≤ 99) :
    1 ≤ pyRound1 v ∧ pyRound1 v ≤ 99 := by
  have hb := bankersRoundZ_bounds 10 990 (v * 10) (by push_cast; linarith)
    (by push_cast; linarith)
  have hc1 : (10:ℚ) ≤ (bankersRoundZ (v * 10) : ℚ) := by exact_mod_cast hb.1
  have hc2 : ((bankersRoundZ (v * 10) : ℚ)) ≤ 990 := by exact_mod_cast hb.2
  unfold pyRound1
  constructor <;> linarith

theorem clamp_round_bounds (x : ℚ) :
    1 ≤ pyRound1 (max 1 (min 99 x)) ∧ pyRound1 (max 1 (min 99 x)) ≤ 99 :=
  pyRound1_bounds _ (le_max_left _ _) (max_le (by norm_num) (min_le_left _ _))

theorem synthPts_ne_nil (p : ℚ) (u : Nat → ℚ) (now : PyDateTime) :
    synthPts p u now ≠ [] := by
  unfold synthPts
  apply setLastY_ne_nil
  intro h
  have hlen := congrArg List.length h
  simp at hlen

theorem synthPts_getLast_y (p : ℚ) (u : Nat → ℚ) (now : PyDateTime) :
    ((synthPts p u now).getLast?).map OddsPoint.y = some p := by
  unfold synthPts
  apply setLastY_getLast_y
  intro h
  have hlen := congrArg List.length h
  simp at hlen

theorem synthPts_dropLast_bounds (p : ℚ) (u : Nat → ℚ) (now : PyDateTime) :
    ∀ pt ∈ (synthPts p u now).dropLast, 1 ≤ pt.y ∧ pt.y ≤ 99 := by
  intro pt hpt
  unfold synthPts at hpt
  rw [setLastY_dropLast] at hpt
  have hmem := (List.dropLast_sublist _).subset hpt
  obtain ⟨i, _, hpt_eq⟩ := List.mem_map.1 hmem
  rw [← hpt_eq]
  exact clamp_round_bounds _

theorem synthPts_all_bounds (p : ℚ) (u : Nat → ℚ) (now : PyDateTime)
    (hp1 : 1 ≤ p) (hp2 : p ≤ 99) :
    ∀ pt ∈ synthPts p u now, 1 ≤ pt.y ∧ pt.y ≤ 99 := by
  intro pt hpt
  have hne := synthPts_ne_nil p u now
  rw [← List.dropLast_append_getLast hne] at hpt
  rcases List.mem_append.1 hpt with h | h
  · exact synthPts_dropLast_bounds p u now pt h
  · have hpt_last : pt = (synthPts p u now).getLast hne := by simpa using h
    have hy := synthPts_getLast_y p u now
    rw [List.getLast?_eq_getLast _ hne] at hy
    have : ((synthPts p u now).getLast hne).y = p := by simpa using hy
    rw [hpt_last, this]
    exact ⟨hp1, hp2⟩

/-- C6 counterexample: for a market with current probability 0 the
synthesized series ends at y = 0, outside [1, 99] — the final overwrite is
neither clamped nor rounded. -/
theorem odds_history_last_point_outside_range :
    ((historyPtsFor (fun _ => []) (fun _ => 0) ⟨2026, 3, 1, 0, 0, 0, 0, none⟩
        zeroProbMarket).getLast?).map OddsPoint.y = some 0
    ∧ ¬(∀ pt ∈ historyPtsFor (fun _ => []) (fun _ => 0) ⟨2026, 3, 1, 0, 0, 0, 0, none⟩
        zeroProbMarket, 1 ≤ pt.y ∧ pt.y ≤ 99) := by
  have hsynth : historyPtsFor (fun _ => []) (fun _ => 0) ⟨2026, 3, 1, 0, 0, 0, 0, none⟩
      zeroProbMarket = synthPts 0 (fun _ => 0) ⟨2026, 3, 1, 0, 0, 0, 0, none⟩ := by
    simp [historyPtsFor, historyPtsReal, zeroProbMarket, currentProb]
  have hy := synthPts_getLast_y 0 (fun _ => 0) ⟨2026, 3, 1, 0, 0, 0, 0, none⟩
  constructor
  · rw [hsynth]
    exact hy
  · intro hall
    rw [hsynth] at hall
    cases hlast : (synthPts 0 (fun _ => 0) ⟨2026, 3, 1, 0, 0, 0, 0, none⟩).getLast? with
    | none => rw [hlast] at hy; exact Option.noConfusion hy
    | some pt =>
      rw [hlast] at hy
      have hpty : pt.y = 0 := by simpa using hy
      have hmem := List.mem_of_getLast?_eq_some hlast
      have hb := hall pt hmem
      rw [hpty] at hb
      exact absurd hb.1 (by norm_num)

/-- C6 (amended): whenever no real price history is available, the series
`build_odds_history` stores for a market is the synthetic one; its final
point's y equals the outcome's current probability exactly, every point
except the final one lies within [1, 99], and all points do whenever the
current probability itself lies within [1, 99]. -/
theorem build_odds_history_synth_anchor
    (fetchHistory : String → List OddsPoint) (U : Nat → Nat → ℚ) (now : PyDateTime)
    (m : MarketRecord) (hreal : historyPtsReal fetchHistory m = []) :
    ((historyPtsFor fetchHistory (U 0) now m).getLast?).map OddsPoint.y
        = some (currentProb m)
    ∧ (∀ pt ∈ (historyPtsFor fetchHistory (U 0) now m).dropLast, 1 ≤ pt.y ∧ pt.y ≤ 99)
    ∧ (1 ≤ currentProb m ∧ currentProb m ≤ 99 →
        ∀ pt ∈ historyPtsFor fetchHistory (U 0) now m, 1 ≤ pt.y ∧ pt.y ≤ 99)
    ∧ (build_odds_history fetchHistory U now [m]).1
        = [(m.question, labelFor m, historyPtsFor fetchHistory (U 0) now m)] := by
  have hsynth : historyPtsFor fetchHistory (U 0) now m
      = synthPts (currentProb m) (U 0) now := by
    simp [historyPtsFor, hreal]
  refine ⟨?_, ?_, ?_, ?_⟩
  · rw [hsynth]
    exact synthPts_getLast_y _ _ _
  · rw [hsynth]
    exact synthPts_dropLast_bounds _ _ _
  · intro hp
    rw [hsynth]
    exact synthPts_all_bounds _ _ _ hp.1 hp.2
  · rfl

theorem build_odds_history_synth_anchor_witness :
    ((historyPtsFor (fun _ => []) ((fun _ _ => 0) 0) ⟨2026, 3, 1, 0, 0, 0, 0, none⟩
        sampleMarket).getLast?).map OddsPoint.y = some (currentProb sampleMarket)
    ∧ (∀ pt ∈ (historyPtsFor (fun _ => []) ((fun _ _ => 0) 0)
        ⟨2026, 3, 1, 0, 0, 0, 0, none⟩ sampleMarket).dropLast, 1 ≤ pt.y ∧ pt.y ≤ 99)
    ∧ (1 ≤ currentProb sampleMarket ∧ currentProb sampleMarket ≤ 99 →
        ∀ pt ∈ historyPtsFor (fun _ => []) ((fun _ _ => 0) 0)
          ⟨2026, 3, 1, 0, 0, 0, 0, none⟩ sampleMarket, 1 ≤ pt.y ∧ pt.y ≤ 99)
    ∧ (build_odds_history (fun _ => []) (fun _ _ => 0) ⟨2026, 3, 1, 0, 0, 0, 0, none⟩
        [sampleMarket]).1
        = [(sampleMarket.question, labelFor sampleMarket,
            historyPtsFor (fun _ => []) ((fun _ _ => 0) 0)
              ⟨2026, 3, 1, 0, 0, 0, 0, none⟩ sampleMarket)] :=
  build_odds_history_synth_anchor (fun _ => []) (fun _ _ => 0)
    ⟨2026, 3, 1, 0, 0, 0, 0, none⟩ sampleMarket rfl

/-! ### C7: the token cleanup is the only mutation -/

/-- C7: after `build_odds_history`, every market record has no
`_clobTokenId` field and every other field is unchanged, whether or not
the market was in the top 6 or had real history. -/
theorem build_odds_history_strips_internal_token
    (fetchHistory : String → List OddsPoint) (U : Nat → Nat → ℚ) (now : PyDateTime)
    (markets : List MarketRecord) :
    ((build_odds_history fetchHistory U now markets).2).length = markets.length
    ∧ ∀ i (h1 : i < ((build_odds_history fetchHistory U now markets).2).length)
        (h2 : i < markets.length),
      (((build_odds_history fetchHistory U now markets).2).get ⟨i, h1⟩).clobTokenId = none
      ∧ (((build_odds_history fetchHistory U now markets).2).get ⟨i, h1⟩).question
          = (markets.get ⟨i, h2⟩).question
      ∧ (((build_odds_history fetchHistory U now markets).2).get ⟨i, h1⟩).resolutionDate
          = (markets.get ⟨i, h2⟩).resolutionDate
      ∧ (((build_odds_history fetchHistory U now markets).2).get ⟨i, h1⟩).volume
          = (markets.get ⟨i, h2⟩).volume
      ∧ (((build_odds_history fetchHistory U now markets).2).get ⟨i, h1⟩).volumeFormatted
          = (markets.get ⟨i, h2⟩).volumeFormatted
      ∧ (((build_odds_history fetchHistory U now markets).2).get ⟨i, h1⟩).outcomes
          = (markets.get ⟨i, h2⟩).outcomes
      ∧ (((build_odds_history fetchHistory U now markets).2).get ⟨i, h1⟩).status
          = (markets.get ⟨i, h2⟩).status
      ∧ (((build_odds_history fetchHistory U now markets).2).get ⟨i, h1⟩).source
          = (markets.get ⟨i, h2⟩).source
      ∧ (((build_odds_history fetchHistory U now markets).2).get ⟨i, h1⟩).url
          = (markets.get ⟨i, h2⟩).url := by
  constructor
  · simp [build_odds_history]
  · intro i h1 h2
    have hget : ((build_odds_history fetchHistory U now markets).2).get ⟨i, h1⟩
        = { markets.get ⟨i, h2⟩ with clobTokenId := none } := by
      simp [build_odds_history, List.get_eq_getElem, List.getElem_map]
    rw [hget]
    exact ⟨rfl, rfl, rfl, rfl, rfl, rfl, rfl, rfl, rfl⟩

theorem build_odds_history_strips_internal_token_witness :
    ((build_odds_history (fun _ => []) (fun _ _ => 0) ⟨2026, 3, 1, 0, 0, 0, 0, none⟩
        [{ sampleMarket with clobTokenId := some "123" }]).2).length
      = [{ sampleMarket with clobTokenId := some "123" }].length
    ∧ (((build_odds_history (fun _ => []) (fun _ _ => 0) ⟨2026, 3, 1, 0, 0, 0, 0, none⟩
        [{ sampleMarket with clobTokenId := some "123" }]).2).get
          ⟨0, by decide⟩).clobTokenId = none
    ∧ (((build_odds_history (fun _ => []) (fun _ _ => 0) ⟨2026, 3, 1, 0, 0, 0, 0, none⟩
        [{ sampleMarket with clobTokenId := some "123" }]).2).get
          ⟨0, by decide⟩).question
        = ([{ sampleMarket with clobTokenId := some "123" }].get ⟨0, by decide⟩).question :=
  ⟨(build_odds_history_strips_internal_token (fun _ => []) (fun _ _ => 0)
      ⟨2026, 3, 1, 0, 0, 0, 0, none⟩ [{ sampleMarket with clobTokenId := some "123" }]).1,
   ((build_odds_history_strips_internal_token (fun _ => []) (fun _ _ => 0)
      ⟨2026, 3, 1, 0, 0, 0, 0, none⟩ [{ sampleMarket with clobTokenId := some "123" }]).2
      0 (by decide) (by decide)).1,
   ((build_odds_history_strips_internal_token (fun _ => []) (fun _ _ => 0)
      ⟨2026, 3, 1, 0, 0, 0, 0, none⟩ [{ sampleMarket with clobTokenId := some "123" }]).2
      0 (by decide) (by decide)).2.1⟩

end IranMonitor

